import Mathlib

/-!
# Verification of the graph data model and rule-based rewriting engine

A shallow embedding of the core of the `graph-generation-language` repository
(`src/types.rs`, `src/rules.rs`, `src/generators.rs`, `src/lib.rs`) together
with proofs about the embedded operations.

Rust's `HashMap<String, V>` is modelled as an insertion-ordered association
list `List (String × V)`: `insert` replaces the value of the first binding of
the key in place (keys stay unique when maps are built from empty), otherwise
appends; `remove` drops every binding of the key; iteration order is the list
order.  The design document (§4.2 step 2, §9) directs implementations to fix
the original's unordered-map iteration to a deterministic stable insertion
order, which is exactly this model.

`f64` values are carried as their IEEE-754 bit pattern (a `Nat`); the partial
equality and the numeric casts Rust performs on them are modelled explicitly
below.  No claim in this development depends on floating-point arithmetic
beyond these comparisons and casts.
-/

namespace GGL

/-- Lookup in an association list: first binding of the key (Rust
`HashMap::get`). -/
def mapLookup {α : Type} (m : List (String × α)) (k : String) : Option α :=
  match m with
  | [] => none
  | (k', v) :: rest => if k' = k then some v else mapLookup rest k

/-- Insert in an association list (Rust `HashMap::insert`): replace the first
binding of the key in place, else append. -/
def mapInsert {α : Type} (m : List (String × α)) (k : String) (v : α) :
    List (String × α) :=
  match m with
  | [] => [(k, v)]
  | (k', v') :: rest =>
      if k' = k then (k, v) :: rest else (k', v') :: mapInsert rest k v

/-- Removal from an association list (Rust `HashMap::remove`): drop every
binding of the key. -/
def mapRemove {α : Type} (m : List (String × α)) (k : String) :
    List (String × α) :=
  match m with
  | [] => []
  | (k', v') :: rest =>
      if k' = k then mapRemove rest k else (k', v') :: mapRemove rest k

/-- The keys of an association list, in iteration order. -/
def mapKeys {α : Type} (m : List (String × α)) : List String :=
  m.map (fun p => p.1)

/-- The values of an association list, in iteration order (Rust
`HashMap::values`). -/
def mapValues {α : Type} (m : List (String × α)) : List α :=
  m.map (fun p => p.2)

/-! ### IEEE-754 double-precision helpers (for the `f64` payloads) -/

/-- Exponent field of an `f64` bit pattern. -/
def float64Exp (bits : Nat) : Nat := bits / 2 ^ 52 % 2 ^ 11

/-- Mantissa field of an `f64` bit pattern. -/
def float64Man (bits : Nat) : Nat := bits % 2 ^ 52

/-- Sign field of an `f64` bit pattern. -/
def float64Sign (bits : Nat) : Nat := bits / 2 ^ 63 % 2

/-- Whether an `f64` bit pattern denotes a NaN. -/
def float64IsNaN (bits : Nat) : Bool :=
  decide (float64Exp bits = 2047 ∧ float64Man bits ≠ 0)

/-- Whether an `f64` bit pattern denotes `+0.0` or `-0.0`. -/
def float64IsZero (bits : Nat) : Bool :=
  decide (float64Exp bits = 0 ∧ float64Man bits = 0)

/-- Rust `f64` partial equality `a == b` on bit patterns: NaNs compare
unequal, the two zeros compare equal, every other value compares equal
exactly to its own bit pattern. -/
def float64Eq (a b : Nat) : Bool :=
  !float64IsNaN a && !float64IsNaN b &&
    (decide (a = b) || (float64IsZero a && float64IsZero b))

/-- Rust `f64 < 0.0`: true exactly for negative non-NaN, nonzero values. -/
def float64Lt0 (bits : Nat) : Bool :=
  decide (float64Sign bits = 1) && !float64IsNaN bits && !float64IsZero bits

/-- Rust saturating cast `f64 as usize` (64-bit target), used only on inputs
that are not negative (the caller guards `< 0.0`): NaN and `-0.0` go to `0`,
`+∞` saturates, finite values truncate toward zero and saturate. -/
def float64ToUsize (bits : Nat) : Nat :=
  if float64IsNaN bits then 0
  else if float64Sign bits = 1 then 0
  else if float64Exp bits = 2047 then 2 ^ 64 - 1
  else
    let e := if float64Exp bits = 0 then 1 else float64Exp bits
    let mf := if float64Exp bits = 0 then float64Man bits
              else 2 ^ 52 + float64Man bits
    let truncated := if 1075 ≤ e then mf * 2 ^ (e - 1075)
                     else mf / 2 ^ (1075 - e)
    min truncated (2 ^ 64 - 1)

/-! ### The data model (`src/types.rs`) -/

/-- `MetadataValue` (types.rs 4-11): a closed variant over text, 64-bit
integer, 64-bit float (carried as its bit pattern) and boolean. -/
inductive MetadataValue where
  | string (s : String)
  | integer (i : Int)
  | float (bits : Nat)
  | boolean (b : Bool)
deriving DecidableEq

/-- The derived Rust `PartialEq` on `MetadataValue`: variant-sensitive, with
`f64` partial-equality semantics on the float payloads. -/
def mvEq : MetadataValue → MetadataValue → Bool
  | .string a, .string b => a == b
  | .integer a, .integer b => a == b
  | .float a, .float b => float64Eq a b
  | .boolean a, .boolean b => a == b
  | _, _ => false

/-- `Node` (types.rs 13-20); `x`/`y` carry the `f64` bit pattern (`0.0` is
bit pattern `0`). -/
structure Node where
  id : String
  type : String
  metadata : List (String × MetadataValue)
  x : Nat
  y : Nat
deriving DecidableEq

/-- `Node::new` (types.rs 23-31). -/
def Node.new (id : String) : Node :=
  { id := id, type := "", metadata := [], x := 0, y := 0 }

/-- `Node::with_type` (types.rs 33-36). -/
def Node.with_type (n : Node) (nodeType : String) : Node :=
  { n with type := nodeType }

/-- `Node::with_metadata` (types.rs 38-41). -/
def Node.with_metadata (n : Node) (key : String) (value : MetadataValue) :
    Node :=
  { n with metadata := mapInsert n.metadata key value }

/-- `Node::with_metadata_map` (types.rs 43-46): `HashMap::extend` inserts
every binding of the argument map in iteration order. -/
def Node.with_metadata_map (n : Node)
    (metadata : List (String × MetadataValue)) : Node :=
  { n with
    metadata := metadata.foldl (fun m p => mapInsert m p.1 p.2) n.metadata }

/-- `Edge` (types.rs 55-62). -/
structure Edge where
  id : String
  source : String
  target : String
  type : String
  metadata : List (String × MetadataValue)
deriving DecidableEq

/-- `Edge::new` (types.rs 65-73). -/
def Edge.new (id source target : String) : Edge :=
  { id := id, source := source, target := target, type := "", metadata := [] }

/-- `Edge::with_metadata` (types.rs 80-83). -/
def Edge.with_metadata (e : Edge) (key : String) (value : MetadataValue) :
    Edge :=
  { e with metadata := mapInsert e.metadata key value }

/-- `Edge::with_metadata_map` (types.rs 85-88). -/
def Edge.with_metadata_map (e : Edge)
    (metadata : List (String × MetadataValue)) : Edge :=
  { e with
    metadata := metadata.foldl (fun m p => mapInsert m p.1 p.2) e.metadata }

/-- `Graph` (types.rs 91-95): two identity-keyed maps. -/
structure Graph where
  nodes : List (String × Node)
  edges : List (String × Edge)
deriving DecidableEq

/-- `Graph::new` (types.rs 98-103). -/
def Graph.new : Graph := { nodes := [], edges := [] }

/-- `Graph::add_node` (types.rs 105-107): insert keyed by the node's own id,
overwriting. -/
def Graph.add_node (g : Graph) (node : Node) : Graph :=
  { g with nodes := mapInsert g.nodes node.id node }

/-- `Graph::add_edge` (types.rs 109-111). -/
def Graph.add_edge (g : Graph) (edge : Edge) : Graph :=
  { g with edges := mapInsert g.edges edge.id edge }

/-- `Graph::remove_node` (types.rs 113-117): remove the node, then retain
only edges whose source and target both differ from the removed id. -/
def Graph.remove_node (g : Graph) (id : String) : Graph :=
  { nodes := mapRemove g.nodes id,
    edges := g.edges.filter
      (fun p => decide (p.2.source ≠ id ∧ p.2.target ≠ id)) }

/-- `Graph::remove_edge` (types.rs 119-121). -/
def Graph.remove_edge (g : Graph) (id : String) : Graph :=
  { g with edges := mapRemove g.edges id }

/-- `Graph::get_node` (types.rs 123-125). -/
def Graph.get_node (g : Graph) (id : String) : Option Node :=
  mapLookup g.nodes id

/-- `Graph::get_edge` (types.rs 127-129). -/
def Graph.get_edge (g : Graph) (id : String) : Option Edge :=
  mapLookup g.edges id

/-- `Graph::node_count` (types.rs 131-133). -/
def Graph.node_count (g : Graph) : Nat := g.nodes.length

/-- `Graph::edge_count` (types.rs 135-137). -/
def Graph.edge_count (g : Graph) : Nat := g.edges.length

/-! ### Pattern data (`src/parser.rs`)

The parser module itself is an external collaborator (spec §1); its source
file is not part of the core.  The shapes of its data declarations are fixed
by the specification and by their uses in `src/rules.rs`. -/

/-- Modelled from the spec: `NodeDeclaration` of the absent `parser.rs` — a
node template with a pattern-local id, an optional required type and a
required attribute subset (spec §3 "Pattern"; fields as constructed in
rules.rs 235-239). -/
structure NodeDeclaration where
  id : String
  node_type : Option String
  attributes : List (String × MetadataValue)
deriving DecidableEq

/-- Modelled from the spec: `EdgeDeclaration` of the absent `parser.rs` — an
edge template with a pattern-local id, pattern-local source/target references,
a directedness flag and required attributes (spec §3; fields as constructed in
rules.rs 257-263).  Note it carries no type field. -/
structure EdgeDeclaration where
  id : String
  source : String
  target : String
  directed : Bool
  attributes : List (String × MetadataValue)
deriving DecidableEq

/-- Modelled from the spec: `Pattern` of the absent `parser.rs` — an ordered
sequence of node templates and a sequence of edge templates (spec §3). -/
structure Pattern where
  nodes : List NodeDeclaration
  edges : List EdgeDeclaration
deriving DecidableEq

/-! ### The rule engine (`src/rules.rs`) -/

/-- `Rule` (rules.rs 5-10). -/
structure Rule where
  name : String
  lhs : Pattern
  rhs : Pattern
deriving DecidableEq

/-- `Match` (rules.rs 217-221): pattern node id → graph node id and pattern
edge id → graph edge id. -/
structure Match where
  node_mapping : List (String × String)
  edge_mapping : List (String × String)
deriving DecidableEq

/-- `Rule::node_matches` (rules.rs 132-152); `self` is unused in the source,
so it is omitted here.  Type must equal the declared type when present, and
every template attribute must be present with an equal (`PartialEq`) value. -/
def node_matches (g : Graph) (graphNodeId : String)
    (patternNode : NodeDeclaration) : Except String Bool :=
  match g.get_node graphNodeId with
  | none => .error ("Node " ++ graphNodeId ++ " not found in graph")
  | some graphNode =>
    let attrsOk : Bool := patternNode.attributes.all
      (fun p => match mapLookup graphNode.metadata p.1 with
        | some graphValue => mvEq graphValue p.2
        | none => false)
    match patternNode.node_type with
    | some t => .ok (if graphNode.type = t then attrsOk else false)
    | none => .ok attrsOk

/-- The inner candidate scan of `Rule::extend_match` (rules.rs 83-94): the
first graph node, in iteration order, that is not already a value of the
node mapping and satisfies the template. -/
def findNodeBinding (g : Graph) (patternNode : NodeDeclaration)
    (nm : List (String × String)) :
    List (String × Node) → Except String (Option String)
  | [] => .ok none
  | (gid, _) :: rest =>
    if gid ∈ mapValues nm then findNodeBinding g patternNode nm rest
    else do
      let b ← node_matches g gid patternNode
      if b then .ok (some gid) else findNodeBinding g patternNode nm rest

/-- The node phase of `Rule::extend_match` (rules.rs 79-99): bind each
remaining template, in order, to the first unmapped satisfying graph node;
`none` when some template has no candidate (`Ok(false)` in the source). -/
def bindNodes (g : Graph) :
    List NodeDeclaration → List (String × String) →
    Except String (Option (List (String × String)))
  | [], nm => .ok (some nm)
  | patternNode :: rest, nm => do
    match ← findNodeBinding g patternNode nm g.nodes with
    | some gid => bindNodes g rest (mapInsert nm patternNode.id gid)
    | none => .ok none

/-- The inner edge scan of `Rule::extend_match` (rules.rs 111-122): the first
graph edge, in iteration order, not already consumed and whose source and
target equal the resolved ids. -/
def findEdgeBinding (src tgt : String) (em : List (String × String)) :
    List (String × Edge) → Option String
  | [] => none
  | (geid, ge) :: rest =>
    if geid ∈ mapValues em then findEdgeBinding src tgt em rest
    else if ge.source = src ∧ ge.target = tgt then some geid
    else findEdgeBinding src tgt em rest

/-- The edge phase of `Rule::extend_match` (rules.rs 101-127): resolve each
edge template's endpoints through the node mapping (an unbound reference is a
caller-visible error), then bind the first matching unconsumed graph edge. -/
def bindEdges (g : Graph) :
    List EdgeDeclaration → List (String × String) →
    List (String × String) →
    Except String (Option (List (String × String)))
  | [], _, em => .ok (some em)
  | patternEdge :: rest, nm, em =>
    match mapLookup nm patternEdge.source with
    | none => .error "Invalid source node in pattern"
    | some src =>
      match mapLookup nm patternEdge.target with
      | none => .error "Invalid target node in pattern"
      | some tgt =>
        match findEdgeBinding src tgt em g.edges with
        | some geid => bindEdges g rest nm (mapInsert em patternEdge.id geid)
        | none => .ok none

/-- `Rule::extend_match` (rules.rs 72-130); `self` is unused in the source.
Returns the extended mappings, or `none` for a silent non-match
(`Ok(false)`). -/
def extend_match (g : Graph) (pattern : Pattern)
    (nm em : List (String × String)) :
    Except String (Option (List (String × String) × List (String × String))) := do
  match ← bindNodes g (pattern.nodes.drop 1) nm with
  | none => .ok none
  | some nm' =>
    match ← bindEdges g pattern.edges nm' em with
    | none => .ok none
    | some em' => .ok (some (nm', em'))

/-- `Rule::match_pattern_from_node` (rules.rs 48-70); `self` is unused in the
source.  An empty pattern matches trivially; otherwise anchor the first
template at the start node and extend. -/
def match_pattern_from_node (g : Graph) (startNode : String)
    (pattern : Pattern) : Except String (Option Match) :=
  match pattern.nodes with
  | [] => .ok (some ⟨[], []⟩)
  | first :: _ => do
    let b ← node_matches g startNode first
    if b then
      match ← extend_match g pattern (mapInsert [] first.id startNode) [] with
      | some (nm, em) => .ok (some ⟨nm, em⟩)
      | none => .ok none
    else .ok none

/-- The scanning loop of `Rule::find_matches` (rules.rs 28-46): iterate graph
nodes in order, skip nodes already visited by an earlier match of this pass,
and on a successful match add all its mapped node ids to the visited set. -/
def find_matches_aux (lhs : Pattern) (g : Graph) :
    List (String × Node) → List String → List Match →
    Except String (List Match)
  | [], _, ms => .ok ms
  | (nodeId, _) :: rest, visited, ms =>
    if nodeId ∈ visited then find_matches_aux lhs g rest visited ms
    else
      match match_pattern_from_node g nodeId lhs with
      | .error e => .error e
      | .ok none => find_matches_aux lhs g rest visited ms
      | .ok (some m) =>
          find_matches_aux lhs g rest (visited ++ mapValues m.node_mapping)
            (ms ++ [m])

/-- `Rule::find_matches` (rules.rs 28-46). -/
def Rule.find_matches (r : Rule) (g : Graph) : Except String (List Match) :=
  find_matches_aux r.lhs g g.nodes [] []

/-- Id resolution through the match's node mapping, as performed by the
rewriter in phases 1 and 4 (rules.rs 159-165, 194-204): a match-bound
pattern-local id resolves to the mapped graph node id, anything else is used
literally. -/
def resolveNode (m : Match) (s : String) : String :=
  match mapLookup m.node_mapping s with
  | some mapped => mapped
  | none => s

/-- The node record built for a brand-new RHS template (rules.rs 169-175):
`Node::new`, then the template type when present, then each attribute. -/
def buildRhsNode (nodeId : String) (node : NodeDeclaration) : Node :=
  node.attributes.foldl (fun n p => n.with_metadata p.1 p.2)
    (match node.node_type with
     | some t => (Node.new nodeId).with_type t
     | none => Node.new nodeId)

/-- The loop body of phase 1 of `Rule::apply_transformation` (rules.rs
158-178): resolve the template id through the match; only when the resolved
id is not a match-bound graph node id, insert a freshly built node into the
`new_nodes` map. -/
def newNodeStep (m : Match) (acc : List (String × Node))
    (node : NodeDeclaration) : List (String × Node) :=
  if resolveNode m node.id ∈ mapValues m.node_mapping then acc
  else mapInsert acc (resolveNode m node.id)
    (buildRhsNode (resolveNode m node.id) node)

/-- Phase 1 of `Rule::apply_transformation` (rules.rs 155-178): collect the
`new_nodes` map over all RHS node templates. -/
def rhs_new_nodes (rhs : Pattern) (m : Match) : List (String × Node) :=
  rhs.nodes.foldl (newNodeStep m) []

/-- The loop body of phase 2 of `Rule::apply_transformation` (rules.rs
181-184): remove the bound graph node unless its pattern-local id occurs
among the RHS template ids. -/
def removeStep (rhs : Pattern) (g : Graph) (p : String × String) : Graph :=
  if rhs.nodes.any (fun n => decide (n.id = p.1)) then g
  else g.remove_node p.2

/-- Phase 2 of `Rule::apply_transformation` (rules.rs 180-185): remove every
match-bound graph node whose pattern-local id does not occur among the RHS
template ids (cascading to its edges via `Graph::remove_node`). -/
def remove_unmatched_nodes (rhs : Pattern) (m : Match) (g : Graph) : Graph :=
  m.node_mapping.foldl (removeStep rhs) g

/-- The edge record built for an RHS edge template (rules.rs 206-209):
`Edge::new` with the template id and resolved endpoints, then each template
attribute (the template carries no type, so the type stays empty). -/
def mkRhsEdge (m : Match) (edge : EdgeDeclaration) : Edge :=
  edge.attributes.foldl (fun e p => e.with_metadata p.1 p.2)
    (Edge.new edge.id (resolveNode m edge.source) (resolveNode m edge.target))

/-- Phase 4 of `Rule::apply_transformation` (rules.rs 192-211): for each RHS
edge template, resolve endpoints through the match (falling back to the
literal id) and add a fresh edge with the template id and attributes. -/
def add_rhs_edges (rhs : Pattern) (m : Match) (g : Graph) : Graph :=
  rhs.edges.foldl (fun g edge => g.add_edge (mkRhsEdge m edge)) g

/-- Repeated attribute insertion into an empty map, as performed by the
`with_metadata` chains of the rewriter. -/
def attrsToMap (attrs : List (String × MetadataValue)) :
    List (String × MetadataValue) :=
  attrs.foldl (fun mm p => mapInsert mm p.1 p.2) []

/-- `Rule::apply_transformation` (rules.rs 154-214): phases 1-4 in source
order; the source function returns `Result` but has no error path. -/
def Rule.apply_transformation (r : Rule) (g : Graph) (m : Match) :
    Except String Graph :=
  .ok (add_rhs_edges r.rhs m
    ((rhs_new_nodes r.rhs m).foldl (fun g p => g.add_node p.2)
      (remove_unmatched_nodes r.rhs m g)))

/-- The per-round loop of `Rule::apply` (rules.rs 20-22): apply every match
of the round to the shared graph in order. -/
def apply_round (r : Rule) : List Match → Graph → Except String Graph
  | [], g => .ok g
  | m :: rest, g =>
    match r.apply_transformation g m with
    | .error e => .error e
    | .ok g' => apply_round r rest g'

/-- `Rule::apply` (rules.rs 13-26): up to `iterations` rounds, each matching
afresh and stopping early on an empty match set; errors propagate. -/
def Rule.apply (r : Rule) (g : Graph) : Nat → Except String Graph
  | 0 => .ok g
  | n + 1 =>
    match r.find_matches g with
    | .error e => .error e
    | .ok ms =>
      if ms.isEmpty then .ok g
      else
        match apply_round r ms g with
        | .error e => .error e
        | .ok g' => Rule.apply r g' n

/-! ### Generators (`src/generators.rs`) -/

/-- `get_param_int` (generators.rs 19-37): integer parameters clamp negatives
to `0`; float parameters go through Rust's guarded `f64 as usize` cast. -/
def get_param_int (params : List (String × MetadataValue)) (key : String) :
    Except String Nat :=
  match mapLookup params key with
  | some (.integer n) => .ok (if n < 0 then 0 else n.toNat)
  | some (.float bits) =>
      .ok (if float64Lt0 bits then 0 else float64ToUsize bits)
  | _ => .error ("Missing or invalid " ++ key ++ " parameter")

/-- `get_param_string` (generators.rs 39-44). -/
def get_param_string (params : List (String × MetadataValue)) (key : String)
    (dflt : String) : String :=
  match mapLookup params key with
  | some (.string s) => s
  | _ => dflt

/-- `get_param_bool` (generators.rs 46-51). -/
def get_param_bool (params : List (String × MetadataValue)) (key : String)
    (dflt : Bool) : Bool :=
  match mapLookup params key with
  | some (.boolean b) => b
  | _ => dflt

/-- The edge id `format!("e{}_{}", i, j)` of `generate_complete`
(generators.rs 72); Rust's decimal formatting of `usize` is `Nat.repr`. -/
def eId (i j : Nat) : String := "e" ++ Nat.repr i ++ "_" ++ Nat.repr j

/-- The inner index range of the all-to-all loop of `generate_complete`
(generators.rs 68): `(if directed { 0 } else { i + 1 })..n`. -/
def completeInner (directed : Bool) (i n : Nat) : List Nat :=
  List.range' (if directed then 0 else i + 1) (n - (if directed then 0 else i + 1))

/-- `generate_complete` (generators.rs 53-79): nodes `prefix0..prefix(n-1)`,
then edges `e{i}_{j}` over all-to-all index pairs (upper triangle when
undirected), skipping `i = j` (node and edge ids use Rust's decimal
formatting, which is `Nat.repr`). -/
def generate_complete (params : List (String × MetadataValue)) :
    Except String Graph :=
  match get_param_int params "nodes" with
  | .error e => .error e
  | .ok n =>
    let pfx := get_param_string params "prefix" "n"
    let directed := get_param_bool params "directed" false
    let g := (List.range n).foldl
      (fun g i => g.add_node (Node.new (pfx ++ Nat.repr i))) Graph.new
    let g := (List.range n).foldl (fun g i =>
      (completeInner directed i n).foldl (fun g j =>
        if i ≠ j then
          g.add_edge (Edge.new (eId i j)
            (pfx ++ Nat.repr i) (pfx ++ Nat.repr j))
        else g) g) g
    .ok g

/-! ### The engine statement loop (`src/lib.rs`) -/

/-- Modelled from the spec: the statement interface the absent `parser.rs`
delivers to the engine (spec §6) — node/edge declarations, rule definitions
and apply directives, as consumed by lib.rs 290-338.  Generator-invocation
statements are omitted here: they only merge a generator-built fragment
(generators embedded separately above) and no claim executes one. -/
inductive GGLStatement where
  | nodeDecl (node : NodeDeclaration)
  | edgeDecl (edge : EdgeDeclaration)
  | ruleDefStmt (name : String) (lhs rhs : Pattern)
  | applyRuleStmt (rule_name : String) (iterations : Nat)

/-- The statement-processing loop of `GGLEngine::generate_from_ggl_native`
(lib.rs 289-338): one graph and one rule registry, statements strictly in
sequence; apply of an unknown rule and rule-application failures are
caller-visible errors with the source's prefixes. -/
def processStatements :
    List GGLStatement → Graph → List (String × Rule) → Except String Graph
  | [], g, _ => .ok g
  | stmt :: rest, g, rules =>
    match stmt with
    | .nodeDecl node =>
        processStatements rest
          (g.add_node (((Node.new node.id).with_type
            (node.node_type.getD "")).with_metadata_map node.attributes))
          rules
    | .edgeDecl edge =>
        processStatements rest
          (g.add_edge ((Edge.new edge.id edge.source
            edge.target).with_metadata_map edge.attributes))
          rules
    | .ruleDefStmt name lhs rhs =>
        processStatements rest g
          (mapInsert rules name { name := name, lhs := lhs, rhs := rhs })
    | .applyRuleStmt rule_name iterations =>
        match mapLookup rules rule_name with
        | some r =>
          match r.apply g iterations with
          | .error e => .error ("Rule application error: " ++ e)
          | .ok g' => processStatements rest g' rules
        | none => .error ("Unknown rule: " ++ rule_name)

/-- `GGLEngine::generate_from_ggl_native` (lib.rs 281-342) after the external
parse step (spec §1 puts the parser and the JSON serialization out of scope):
the engine state is reset, so processing starts from the empty graph and an
empty rule registry, and the resulting graph is returned. -/
def generate_from_ggl_native (statements : List GGLStatement) :
    Except String Graph :=
  processStatements statements Graph.new []

/-! ## Association-map lemmas -/

theorem mapLookup_mem {α : Type} {m : List (String × α)} {k : String}
    {v : α} (h : mapLookup m k = some v) : (k, v) ∈ m := by
  induction m with
  | nil => simp [mapLookup] at h
  | cons p rest ih =>
    obtain ⟨k', v'⟩ := p
    by_cases hk : k' = k
    · subst hk
      simp [mapLookup] at h
      subst h
      exact List.mem_cons_self _ _
    · simp [mapLookup, hk] at h
      exact List.mem_cons_of_mem _ (ih h)

theorem mapLookup_eq_none_of_not_mem {α : Type} {m : List (String × α)}
    {k : String} (h : ∀ v, (k, v) ∉ m) : mapLookup m k = none := by
  induction m with
  | nil => rfl
  | cons p rest ih =>
    obtain ⟨k', v'⟩ := p
    by_cases hk : k' = k
    · subst hk
      exact absurd (List.mem_cons_self _ _) (h v')
    · simp only [mapLookup, hk, if_false]
      exact ih (fun v hv => h v (List.mem_cons_of_mem _ hv))

theorem mapLookup_remove_self {α : Type} (m : List (String × α))
    (k : String) : mapLookup (mapRemove m k) k = none := by
  induction m with
  | nil => rfl
  | cons p rest ih =>
    obtain ⟨k', v'⟩ := p
    by_cases hk : k' = k
    · simpa [mapRemove, hk] using ih
    · simpa [mapRemove, mapLookup, hk] using ih

theorem mapLookup_remove_ne {α : Type} (m : List (String × α))
    {k k' : String} (h : k' ≠ k) :
    mapLookup (mapRemove m k) k' = mapLookup m k' := by
  induction m with
  | nil => rfl
  | cons p rest ih =>
    obtain ⟨k₀, v₀⟩ := p
    by_cases hk : k₀ = k
    · subst hk
      have : k₀ ≠ k' := fun hc => h hc.symm
      simp [mapRemove, mapLookup, this, ih]
    · by_cases hk' : k₀ = k'
      · simp [mapRemove, mapLookup, hk, hk', h]
      · simp [mapRemove, mapLookup, hk, hk', ih]

theorem mapRemove_of_lookup_none {α : Type} {m : List (String × α)}
    {k : String} (h : mapLookup m k = none) : mapRemove m k = m := by
  induction m with
  | nil => rfl
  | cons p rest ih =>
    obtain ⟨k', v'⟩ := p
    by_cases hk : k' = k
    · subst hk
      simp [mapLookup] at h
    · simp only [mapLookup, hk, if_false] at h
      simp [mapRemove, hk, ih h]

theorem mapLookup_filter_some {α : Type} {m : List (String × α)}
    {q : String × α → Bool} {k : String} {v : α}
    (h : mapLookup (m.filter q) k = some v) : q (k, v) = true := by
  have hmem := mapLookup_mem h
  exact (List.mem_filter.mp hmem).2

theorem mapLookup_filter_of_true {α : Type} {m : List (String × α)}
    {q : String × α → Bool} {k : String} {v : α}
    (h : mapLookup m k = some v) (hq : q (k, v) = true) :
    mapLookup (m.filter q) k = some v := by
  induction m with
  | nil => simp [mapLookup] at h
  | cons p rest ih =>
    obtain ⟨k', v'⟩ := p
    by_cases hk : k' = k
    · subst hk
      simp only [mapLookup, if_pos rfl] at h
      obtain rfl : v' = v := by injection h
      simp [List.filter_cons, hq, mapLookup]
    · simp only [mapLookup, hk, if_false] at h
      by_cases hq' : q (k', v') = true
      · simp [List.filter_cons, hq', mapLookup, hk, ih h]
      · simp only [List.filter_cons, hq', if_neg, Bool.false_eq_true,
          not_false_iff, if_false]
        exact ih h

theorem mapLookup_filter_none {α : Type} {m : List (String × α)}
    {q : String × α → Bool} {k : String}
    (h : mapLookup m k = none) : mapLookup (m.filter q) k = none := by
  induction m with
  | nil => rfl
  | cons p rest ih =>
    obtain ⟨k', v'⟩ := p
    by_cases hk : k' = k
    · subst hk
      simp [mapLookup] at h
    · simp only [mapLookup, hk, if_false] at h
      by_cases hq' : q (k', v') = true
      · simp [List.filter_cons, hq', mapLookup, hk, ih h]
      · simp only [List.filter_cons, hq', Bool.false_eq_true, if_false]
        exact ih h

theorem mapLookup_insert_self {α : Type} (m : List (String × α))
    (k : String) (v : α) : mapLookup (mapInsert m k v) k = some v := by
  induction m with
  | nil => simp [mapInsert, mapLookup]
  | cons p rest ih =>
    obtain ⟨k', v'⟩ := p
    by_cases hk : k' = k
    · simp [mapInsert, hk, mapLookup]
    · simp [mapInsert, hk, mapLookup, ih]

theorem mapLookup_insert_ne {α : Type} (m : List (String × α))
    {k k' : String} (v : α) (h : k' ≠ k) :
    mapLookup (mapInsert m k v) k' = mapLookup m k' := by
  induction m with
  | nil => simp [mapInsert, mapLookup, Ne.symm h]
  | cons p rest ih =>
    obtain ⟨k₀, v₀⟩ := p
    by_cases hk : k₀ = k
    · subst hk
      simp [mapInsert, mapLookup, Ne.symm h]
    · by_cases hk' : k₀ = k'
      · simp [mapInsert, hk, mapLookup, hk', h]
      · simp [mapInsert, hk, mapLookup, hk', ih]

/-! ## C2: cascading delete on `remove_node` -/

/-- C2.  For every graph `G` and node id `n`, after `remove_node n` the node
`n` is absent, no surviving edge has source or target `n`, every other node
is unchanged, and every edge not incident to `n` is unchanged. -/
theorem remove_node_cascading_delete (g : Graph) (n : String) :
    (g.remove_node n).get_node n = none
    ∧ (∀ eid e, (g.remove_node n).get_edge eid = some e →
        e.source ≠ n ∧ e.target ≠ n)
    ∧ (∀ m, m ≠ n → (g.remove_node n).get_node m = g.get_node m)
    ∧ (∀ eid e, g.get_edge eid = some e → e.source ≠ n → e.target ≠ n →
        (g.remove_node n).get_edge eid = some e) := by
  refine ⟨?_, ?_, ?_, ?_⟩
  · exact mapLookup_remove_self g.nodes n
  · intro eid e h
    have := mapLookup_filter_some (m := g.edges) h
    simpa using this
  · intro m hm
    exact mapLookup_remove_ne g.nodes hm
  · intro eid e h hs ht
    exact mapLookup_filter_of_true h (by simp [hs, ht])

/-- Witness for C2 at a concrete graph: two nodes joined by an edge; removing
`n1` leaves `n2` intact, kills the incident edge, and keeps a non-incident
edge. -/
theorem remove_node_cascading_delete_witness :
    ((((Graph.new.add_node (Node.new "n1")).add_node
        (Node.new "n2")).add_edge
        (Edge.new "e1" "n1" "n2")).remove_node "n1").get_node "n2" =
      (((Graph.new.add_node (Node.new "n1")).add_node
        (Node.new "n2")).add_edge
        (Edge.new "e1" "n1" "n2")).get_node "n2" :=
  (remove_node_cascading_delete
    (((Graph.new.add_node (Node.new "n1")).add_node
      (Node.new "n2")).add_edge (Edge.new "e1" "n1" "n2"))
    "n1").2.2.1 "n2" (by decide)

/-! ## C10: `remove_node` on an absent id still purges dangling edges -/

/-- C10.  For every graph `G` and id `n` not present in the node map,
`remove_node n` leaves the node map unchanged, still removes every edge whose
source or target is `n`, and keeps every other edge. -/
theorem remove_node_absent_purges_dangling (g : Graph) (n : String)
    (h : g.get_node n = none) :
    (g.remove_node n).nodes = g.nodes
    ∧ (∀ eid e, (g.remove_node n).get_edge eid = some e →
        e.source ≠ n ∧ e.target ≠ n)
    ∧ (∀ eid e, g.get_edge eid = some e → e.source ≠ n → e.target ≠ n →
        (g.remove_node n).get_edge eid = some e) := by
  refine ⟨mapRemove_of_lookup_none h, ?_, ?_⟩
  · intro eid e he
    have := mapLookup_filter_some (m := g.edges) he
    simpa using this
  · intro eid e he hs ht
    exact mapLookup_filter_of_true he (by simp [hs, ht])

/-! ## C8: a rule with zero matches is an identity, for any iteration count -/

/-- C8.  If the LHS pattern currently has zero matches, `Rule::apply` returns
`Ok` and the graph is exactly unchanged, for every iteration count. -/
theorem rule_apply_no_matches_identity (r : Rule) (g : Graph) (n : Nat)
    (h : r.find_matches g = .ok []) : r.apply g n = .ok g := by
  cases n with
  | zero => rfl
  | succ n => simp [Rule.apply, h]

/-- Witness for C8: a rule whose LHS requires type `X` has no match in a
graph with a single untyped node, and applying it 5 times is an identity. -/
theorem rule_apply_no_matches_identity_witness :
    Rule.apply
      { name := "r",
        lhs := { nodes := [⟨"A", some "X", []⟩], edges := [] },
        rhs := { nodes := [], edges := [] } }
      (Graph.new.add_node (Node.new "n1")) 5 =
      .ok (Graph.new.add_node (Node.new "n1")) :=
  rule_apply_no_matches_identity _ _ 5 (by rfl)

/-! ## C4: the end-to-end `active=true` scenario -/

/-- The C4 program at the parser interface (spec §6): nodes `alice` and
`bob` of type `person` with `age` attributes, a rule whose LHS matches one
`person` node and whose RHS re-declares it with `active=true`, applied
once. -/
def c4Program : List GGLStatement :=
  [ .nodeDecl ⟨"alice", some "person", [("age", .integer 30)]⟩,
    .nodeDecl ⟨"bob", some "person", [("age", .integer 25)]⟩,
    .ruleDefStmt "add_active"
      { nodes := [⟨"N", some "person", []⟩], edges := [] }
      { nodes := [⟨"N", some "person", [("active", .boolean true)]⟩],
        edges := [] },
    .applyRuleStmt "add_active" 1 ]

/-- Counterexample to C4 as stated: running the program succeeds, but the
preserved node `alice` does NOT carry an `active` attribute afterwards (nor
does `bob`) — RHS attributes are not reapplied to preserved nodes. -/
theorem c4_counterexample :
    (generate_from_ggl_native c4Program).map
        (fun g => ((g.get_node "alice").map
            (fun nd => mapLookup nd.metadata "active"),
          (g.get_node "bob").map
            (fun nd => mapLookup nd.metadata "active"))) =
      .ok (some none, some none) := by
  rfl

/-- C4 as amended.  The program yields 2 nodes and 0 edges, but both nodes
keep exactly their original type and attributes: `active=true` is not added,
because a match-preserved node is neither recreated nor has the RHS
template's attributes reapplied (spec §4.3 step 1, §9). -/
theorem c4_program_preserves_nodes_unchanged :
    generate_from_ggl_native c4Program =
      .ok
        { nodes :=
            [("alice",
              { id := "alice", type := "person",
                metadata := [("age", .integer 30)], x := 0, y := 0 }),
             ("bob",
              { id := "bob", type := "person",
                metadata := [("age", .integer 25)], x := 0, y := 0 })],
          edges := [] }
    ∧ (generate_from_ggl_native c4Program).map
        (fun g => (g.node_count, g.edge_count)) = .ok (2, 0) := by
  exact ⟨by rfl, by rfl⟩

/-! ## C3: which RHS node templates produce fresh nodes -/

/-- C3 counterexample rule: LHS matches one arbitrary node `A`; the RHS keeps
`A` and declares a brand-new template `B1` carrying attribute `k=1`. -/
def c3CexRule : Rule :=
  { name := "c3",
    lhs := { nodes := [⟨"A", none, []⟩], edges := [] },
    rhs := { nodes := [⟨"A", none, []⟩, ⟨"B1", none, [("k", .integer 1)]⟩],
             edges := [] } }

/-- C3 counterexample graph: a single node whose graph id happens to be
`B1`. -/
def c3CexGraph : Graph := Graph.new.add_node (Node.new "B1")

/-- C3 counterexample match, as the matcher produces it: `A ↦ B1`. -/
def c3CexMatch : Match := ⟨[("A", "B1")], []⟩

/-- Counterexample to C3 as stated: the RHS template `B1` has an id absent
from the Match's node mapping, so the claim requires a fresh node with its
attribute `k=1`; but because the template id collides with the match-bound
graph node id `B1`, the rewriter creates nothing and the graph is returned
unchanged, with node `B1` still carrying no attributes. -/
theorem c3_counterexample :
    c3CexRule.apply_transformation c3CexGraph c3CexMatch = .ok c3CexGraph
    ∧ c3CexGraph.get_node "B1" = some (Node.new "B1") := by
  exact ⟨by rfl, by rfl⟩

/-! ## C1: disjointness of a single matching pass -/

/-- C1 counterexample rule: an LHS of two unconstrained node templates. -/
def c1CexRule : Rule :=
  { name := "c1",
    lhs := { nodes := [⟨"A", none, []⟩, ⟨"B", none, []⟩], edges := [] },
    rhs := { nodes := [⟨"A", none, []⟩, ⟨"B", none, []⟩], edges := [] } }

/-- C1 counterexample graph: three plain nodes `n1`, `n2`, `n3`. -/
def c1CexGraph : Graph :=
  ((Graph.new.add_node (Node.new "n1")).add_node
    (Node.new "n2")).add_node (Node.new "n3")

/-- Counterexample to C1 as stated: the single pass returns two matches
`{A↦n1, B↦n2}` and `{A↦n3, B↦n1}`, which share the graph node id `n1` — the
extension step only avoids nodes of the current match, not the pass-level
visited set. -/
theorem c1_counterexample :
    c1CexRule.find_matches c1CexGraph =
      .ok [⟨[("A", "n1"), ("B", "n2")], []⟩, ⟨[("A", "n3"), ("B", "n1")], []⟩]
    ∧ "n1" ∈ mapValues [("A", "n1"), ("B", "n2")]
    ∧ "n1" ∈ mapValues [("A", "n3"), ("B", "n1")] := by
  exact ⟨by rfl, by decide, by decide⟩

/-! ## C7: an unbound edge-template reference is a fatal error -/

/-- C7.  When a pattern edge template references a pattern-local node id that
is not among the node template ids (so it cannot be bound in the node mapping
being built), matching produces the error `"Invalid source node in pattern"`,
and the error propagates out of the whole `Rule::apply` call rather than
being treated as a silent non-match.  Stated for any rule whose single
unconstrained node template anchors at the first node of any nonempty graph,
so that the edge phase is reached. -/
theorem edge_template_unbound_ref_errors (r : Rule) (g : Graph) (n : Nat)
    (nt : NodeDeclaration) (ed : EdgeDeclaration) (es : List EdgeDeclaration)
    (p : String × Node) (l : List (String × Node))
    (hnodes : r.lhs.nodes = [nt])
    (htype : nt.node_type = none)
    (hattrs : nt.attributes = [])
    (hedges : r.lhs.edges = ed :: es)
    (hsrc : ed.source ≠ nt.id)
    (hg : g.nodes = p :: l)
    (hn : 1 ≤ n) :
    r.apply g n = .error "Invalid source node in pattern" := by
  obtain ⟨m, rfl⟩ : ∃ m, n = m + 1 := ⟨n - 1, by omega⟩
  have hfm : r.find_matches g = .error "Invalid source node in pattern" := by
    obtain ⟨nid, nd⟩ := p
    have hnm : node_matches g nid nt = .ok true := by
      simp [node_matches, Graph.get_node, hg, mapLookup, htype, hattrs]
    simp [Rule.find_matches, hg, find_matches_aux, match_pattern_from_node,
      hnodes, hnm, extend_match, bindNodes, bindEdges, hedges,
      mapInsert, mapLookup, Ne.symm hsrc, Bind.bind, Except.bind]
  simp [Rule.apply, hfm]

/-- Witness for C7: a malformed rule whose LHS edge references the undeclared
template id `X` makes `apply` fail on a one-node graph. -/
theorem edge_template_unbound_ref_errors_witness :
    Rule.apply
      { name := "bad",
        lhs := { nodes := [⟨"N", none, []⟩],
                 edges := [⟨"e0", "X", "N", true, []⟩] },
        rhs := { nodes := [⟨"N", none, []⟩], edges := [] } }
      (Graph.new.add_node (Node.new "n1")) 1 =
      .error "Invalid source node in pattern" :=
  edge_template_unbound_ref_errors _ _ 1 ⟨"N", none, []⟩
    ⟨"e0", "X", "N", true, []⟩ [] ("n1", Node.new "n1") []
    rfl rfl rfl rfl (by decide) rfl (by decide)

/-- Witness for C10 at a concrete graph: a dangling edge keyed on the absent
id `ghost` is purged while the node map survives unchanged. -/
theorem remove_node_absent_purges_dangling_witness :
    (((Graph.new.add_node (Node.new "n1")).add_edge
        (Edge.new "e1" "ghost" "n1")).remove_node "ghost").nodes =
      ((Graph.new.add_node (Node.new "n1")).add_edge
        (Edge.new "e1" "ghost" "n1")).nodes :=
  (remove_node_absent_purges_dangling
    ((Graph.new.add_node (Node.new "n1")).add_edge
      (Edge.new "e1" "ghost" "n1")) "ghost" (by decide)).1


/-! ## C1: node-disjointness of the matches of a single pass -/

/-- Any match produced from an anchor by `match_pattern_from_node` for a
pattern with at most one node template maps every bound template to the
anchor node itself. -/
theorem match_values_eq_start (g : Graph) (start : String) (pattern : Pattern)
    (hlen : pattern.nodes.length ≤ 1) (m : Match)
    (h : match_pattern_from_node g start pattern = .ok (some m)) :
    ∀ x ∈ mapValues m.node_mapping, x = start := by
  cases hp : pattern.nodes with
  | nil =>
    simp only [match_pattern_from_node, hp] at h
    injection h with h
    injection h with h
    subst h
    simp [mapValues]
  | cons first rest =>
    have hrest : rest = [] := by
      rw [hp] at hlen
      simp only [List.length_cons] at hlen
      exact List.eq_nil_of_length_eq_zero (by omega)
    subst hrest
    simp only [match_pattern_from_node, hp] at h
    cases hnm : node_matches g start first with
    | error e => simp [hnm, Bind.bind, Except.bind] at h
    | ok b =>
      cases b with
      | false => simp [hnm, Bind.bind, Except.bind] at h
      | true =>
        have hdrop : pattern.nodes.drop 1 = [] := by rw [hp]; rfl
        simp only [hnm, Bind.bind, Except.bind, if_true, extend_match,
          hdrop, bindNodes] at h
        cases hbe : bindEdges g pattern.edges (mapInsert [] first.id start) [] with
        | error e => simp [hbe] at h
        | ok o =>
          cases o with
          | none => simp [hbe] at h
          | some em =>
            simp only [hbe] at h
            injection h with h
            injection h with h
            subst h
            simp [mapValues, mapInsert]

/-- Invariant of the scanning loop: when every produced match only binds its
own anchor, the recorded matches stay pairwise node-disjoint (all their node
ids are inside the visited set, and fresh anchors are unvisited). -/
theorem find_matches_aux_disjoint_inv (lhs : Pattern) (g : Graph)
    (hone : ∀ start m', match_pattern_from_node g start lhs = .ok (some m') →
      ∀ x ∈ mapValues m'.node_mapping, x = start) :
    ∀ (nl : List (String × Node)) (visited : List String) (acc ms : List Match),
      find_matches_aux lhs g nl visited acc = .ok ms →
      (∀ m ∈ acc, ∀ x ∈ mapValues m.node_mapping, x ∈ visited) →
      acc.Pairwise
        (fun a b => ∀ x ∈ mapValues a.node_mapping, x ∉ mapValues b.node_mapping) →
      ms.Pairwise
        (fun a b => ∀ x ∈ mapValues a.node_mapping, x ∉ mapValues b.node_mapping) := by
  intro nl
  induction nl with
  | nil =>
    intro visited acc ms h h1 h2
    unfold find_matches_aux at h
    injection h with h
    subst h
    exact h2
  | cons p rest ih =>
    intro visited acc ms h h1 h2
    obtain ⟨nid, nd⟩ := p
    by_cases hv : nid ∈ visited
    · simp only [find_matches_aux, if_pos hv] at h
      exact ih visited acc ms h h1 h2
    · simp only [find_matches_aux, if_neg hv] at h
      cases hm : match_pattern_from_node g nid lhs with
      | error e => rw [hm] at h; exact absurd h (by simp)
      | ok o =>
        rw [hm] at h
        cases o with
        | none => exact ih visited acc ms h h1 h2
        | some m =>
          refine ih _ _ _ h ?_ ?_
          · intro m' hm' x hx
            rcases List.mem_append.mp hm' with hold | hnew
            · exact List.mem_append_left _ (h1 m' hold x hx)
            · obtain rfl : m' = m := by simpa using hnew
              exact List.mem_append_right _ hx
          · rw [List.pairwise_append]
            refine ⟨h2, List.pairwise_singleton _ _, ?_⟩
            intro a ha b hb x hxa
            rw [List.mem_singleton] at hb
            intro hxb
            have hxv : x ∈ visited := h1 a ha x hxa
            have hxn : x = nid := hone nid m hm x (hb ▸ hxb)
            exact hv (hxn ▸ hxv)

/-- C1 as amended.  Within a single matching pass, no two returned matches
share a graph node id, provided the LHS pattern has at most one node
template.  (With two or more templates the property fails on the code:
see the counterexample, where the extension step rebinds a node of an
earlier match.) -/
theorem find_matches_single_template_disjoint (r : Rule) (g : Graph)
    (ms : List Match) (hlen : r.lhs.nodes.length ≤ 1)
    (h : r.find_matches g = .ok ms) :
    ms.Pairwise
      (fun a b => ∀ x ∈ mapValues a.node_mapping, x ∉ mapValues b.node_mapping) :=
  find_matches_aux_disjoint_inv r.lhs g
    (fun start m' h' => match_values_eq_start g start r.lhs hlen m' h')
    g.nodes [] [] ms h (by simp) List.Pairwise.nil

/-- Witness for C1 (amended) on a concrete pass: a one-template `person`
rule over the two-person graph returns two matches binding `alice` and `bob`,
which are node-disjoint. -/
theorem find_matches_single_template_disjoint_witness :
    ([⟨[("N", "alice")], []⟩, ⟨[("N", "bob")], []⟩] : List Match).Pairwise
      (fun a b => ∀ x ∈ mapValues a.node_mapping, x ∉ mapValues b.node_mapping) :=
  find_matches_single_template_disjoint
    { name := "w",
      lhs := { nodes := [⟨"N", some "person", []⟩], edges := [] },
      rhs := { nodes := [⟨"N", some "person", []⟩], edges := [] } }
    ((Graph.new.add_node ((Node.new "alice").with_type "person")).add_node
      ((Node.new "bob").with_type "person"))
    _ (by decide) (by rfl)


/-! ## Rewriter lemmas (shared by C3, C5 and C6) -/

theorem mem_mapInsert {α : Type} {m : List (String × α)} {k : String} {v : α}
    {p : String × α} (h : p ∈ mapInsert m k v) : p ∈ m ∨ p = (k, v) := by
  induction m with
  | nil => simpa [mapInsert] using h
  | cons q rest ih =>
    obtain ⟨k₀, v₀⟩ := q
    simp only [mapInsert] at h
    by_cases hk : k₀ = k
    · rw [if_pos hk] at h
      rcases List.mem_cons.mp h with h' | h'
      · right; exact h'
      · left; exact List.mem_cons_of_mem _ h'
    · rw [if_neg hk] at h
      rcases List.mem_cons.mp h with h' | h'
      · left; rw [h']; exact List.mem_cons_self _ _
      · rcases ih h' with h'' | h''
        · left; exact List.mem_cons_of_mem _ h''
        · right; exact h''

theorem mapInsert_self_mem {α : Type} (m : List (String × α)) (k : String)
    (v : α) : (k, v) ∈ mapInsert m k v := by
  induction m with
  | nil => simp [mapInsert]
  | cons q rest ih =>
    obtain ⟨k₀, v₀⟩ := q
    simp only [mapInsert]
    by_cases hk : k₀ = k
    · rw [if_pos hk]; exact List.mem_cons_self _ _
    · rw [if_neg hk]; exact List.mem_cons_of_mem _ ih

theorem mem_mapInsert_of_ne {α : Type} {m : List (String × α)} {k : String}
    {v : α} {p : String × α} (h : p ∈ m) (hne : p.1 ≠ k) :
    p ∈ mapInsert m k v := by
  induction m with
  | nil => simp at h
  | cons q rest ih =>
    obtain ⟨k₀, v₀⟩ := q
    simp only [mapInsert]
    by_cases hk : k₀ = k
    · rw [if_pos hk]
      rcases List.mem_cons.mp h with h' | h'
      · exact absurd hk (by simpa [h'] using hne)
      · exact List.mem_cons_of_mem _ h'
    · rw [if_neg hk]
      rcases List.mem_cons.mp h with h' | h'
      · rw [h']; exact List.mem_cons_self _ _
      · exact List.mem_cons_of_mem _ (ih h')

theorem mapLookup_some_val_mem {α : Type} {m : List (String × α)}
    {k : String} {v : α} (h : mapLookup m k = some v) : v ∈ mapValues m :=
  List.mem_map_of_mem _ (mapLookup_mem h)

theorem edge_fold_with_metadata (attrs : List (String × MetadataValue)) :
    ∀ e0 : Edge,
      attrs.foldl (fun e p => e.with_metadata p.1 p.2) e0 =
        { e0 with
          metadata := attrs.foldl (fun mm p => mapInsert mm p.1 p.2) e0.metadata } := by
  induction attrs with
  | nil => intro e0; rfl
  | cons a rest ih =>
    intro e0
    simp only [List.foldl_cons]
    rw [ih]
    rfl

theorem node_fold_with_metadata (attrs : List (String × MetadataValue)) :
    ∀ n0 : Node,
      attrs.foldl (fun n p => n.with_metadata p.1 p.2) n0 =
        { n0 with
          metadata := attrs.foldl (fun mm p => mapInsert mm p.1 p.2) n0.metadata } := by
  induction attrs with
  | nil => intro n0; rfl
  | cons a rest ih =>
    intro n0
    simp only [List.foldl_cons]
    rw [ih]
    rfl

theorem mkRhsEdge_eq (m : Match) (t : EdgeDeclaration) :
    mkRhsEdge m t =
      { id := t.id, source := resolveNode m t.source,
        target := resolveNode m t.target, type := "",
        metadata := attrsToMap t.attributes } := by
  unfold mkRhsEdge attrsToMap
  rw [edge_fold_with_metadata]
  rfl

theorem mkRhsEdge_id (m : Match) (t : EdgeDeclaration) :
    (mkRhsEdge m t).id = t.id := by rw [mkRhsEdge_eq]

theorem buildRhsNode_eq (nodeId : String) (t : NodeDeclaration) :
    buildRhsNode nodeId t =
      { id := nodeId, type := t.node_type.getD "",
        metadata := attrsToMap t.attributes, x := 0, y := 0 } := by
  unfold buildRhsNode attrsToMap
  cases t.node_type with
  | none => rw [node_fold_with_metadata]; rfl
  | some ty => rw [node_fold_with_metadata]; rfl

theorem buildRhsNode_id (nodeId : String) (t : NodeDeclaration) :
    (buildRhsNode nodeId t).id = nodeId := by rw [buildRhsNode_eq]

theorem foldl_add_node_pairs_edges (l : List (String × Node)) :
    ∀ g : Graph,
      ((l.foldl (fun g p => g.add_node p.2) g)).edges = g.edges := by
  induction l with
  | nil => intro g; rfl
  | cons q rest ih =>
    intro g
    simp only [List.foldl_cons]
    rw [ih]
    rfl

theorem foldl_add_node_pairs_preserve (l : List (String × Node)) :
    ∀ (g : Graph) (k : String), (∀ p ∈ l, p.2.id ≠ k) →
      mapLookup ((l.foldl (fun g p => g.add_node p.2) g)).nodes k =
        mapLookup g.nodes k := by
  induction l with
  | nil => intro g k _; rfl
  | cons q rest ih =>
    intro g k h
    simp only [List.foldl_cons]
    rw [ih _ k (fun p hp => h p (List.mem_cons_of_mem _ hp))]
    show mapLookup (mapInsert g.nodes q.2.id q.2) k = mapLookup g.nodes k
    exact mapLookup_insert_ne _ _ (Ne.symm (h q (List.mem_cons_self _ _)))

theorem foldl_add_node_pairs_lookup {v : Node} {k : String} :
    ∀ (l : List (String × Node)) (g : Graph),
      (∃ p ∈ l, p.1 = k) → (∀ p ∈ l, p.1 = k → p.2 = v) →
      (∀ p ∈ l, p.2.id = p.1) →
      mapLookup ((l.foldl (fun g p => g.add_node p.2) g)).nodes k = some v := by
  intro l
  induction l with
  | nil =>
    intro g hex _ _
    simp at hex
  | cons q rest ih =>
    intro g hex hval hid
    obtain ⟨k₀, v₀⟩ := q
    simp only [List.foldl_cons]
    by_cases hk : k₀ = k
    · by_cases hex' : ∃ p ∈ rest, p.1 = k
      · exact ih _ hex' (fun p hp => hval p (List.mem_cons_of_mem _ hp))
          (fun p hp => hid p (List.mem_cons_of_mem _ hp))
      · have hv : v₀ = v := hval (k₀, v₀) (List.mem_cons_self _ _) hk
        have hne : ∀ p ∈ rest, p.2.id ≠ k := by
          intro p hp hc
          exact hex' ⟨p, hp, by rw [← hid p (List.mem_cons_of_mem _ hp)]; exact hc⟩
        rw [foldl_add_node_pairs_preserve rest _ k hne]
        show mapLookup (mapInsert g.nodes v₀.id v₀) k = some v
        have hid0 : v₀.id = k₀ := hid (k₀, v₀) (List.mem_cons_self _ _)
        rw [hid0, hk, mapLookup_insert_self, hv]
    · have hex' : ∃ p ∈ rest, p.1 = k := by
        rcases hex with ⟨p, hp, hpk⟩
        rcases List.mem_cons.mp hp with h' | h'
        · exact absurd (by rw [h'] at hpk; exact hpk) hk
        · exact ⟨p, h', hpk⟩
      exact ih _ hex' (fun p hp => hval p (List.mem_cons_of_mem _ hp))
        (fun p hp => hid p (List.mem_cons_of_mem _ hp))

theorem foldl_add_edge_nodes (m : Match) (es : List EdgeDeclaration) :
    ∀ g : Graph,
      ((es.foldl (fun g e => g.add_edge (mkRhsEdge m e)) g)).nodes = g.nodes := by
  induction es with
  | nil => intro g; rfl
  | cons e rest ih =>
    intro g
    simp only [List.foldl_cons]
    rw [ih]
    rfl

theorem foldl_add_edge_preserve (m : Match) (es : List EdgeDeclaration) :
    ∀ (g : Graph) (k : String), (∀ e ∈ es, e.id ≠ k) →
      mapLookup ((es.foldl (fun g e => g.add_edge (mkRhsEdge m e)) g)).edges k =
        mapLookup g.edges k := by
  induction es with
  | nil => intro g k _; rfl
  | cons e rest ih =>
    intro g k h
    simp only [List.foldl_cons]
    rw [ih _ k (fun e' he' => h e' (List.mem_cons_of_mem _ he'))]
    show mapLookup (mapInsert g.edges (mkRhsEdge m e).id (mkRhsEdge m e)) k =
      mapLookup g.edges k
    rw [mkRhsEdge_id]
    exact mapLookup_insert_ne _ _ (Ne.symm (h e (List.mem_cons_self _ _)))

theorem foldl_add_edge_lookup (m : Match) :
    ∀ (es : List EdgeDeclaration) (g : Graph) (t : EdgeDeclaration),
      t ∈ es → (es.map (fun e => e.id)).Nodup →
      mapLookup ((es.foldl (fun g e => g.add_edge (mkRhsEdge m e)) g)).edges t.id =
        some (mkRhsEdge m t) := by
  intro es
  induction es with
  | nil => intro g t ht _; simp at ht
  | cons e rest ih =>
    intro g t ht hnd
    simp only [List.map_cons, List.nodup_cons] at hnd
    simp only [List.foldl_cons]
    rcases List.mem_cons.mp ht with h' | h'
    · subst h'
      have hne : ∀ e' ∈ rest, e'.id ≠ t.id := by
        intro e' he' hc
        exact hnd.1 (hc ▸ List.mem_map_of_mem _ he')
      rw [foldl_add_edge_preserve m rest _ t.id hne]
      show mapLookup (mapInsert g.edges (mkRhsEdge m t).id (mkRhsEdge m t)) t.id =
        some (mkRhsEdge m t)
      rw [mkRhsEdge_id]
      exact mapLookup_insert_self _ _ _
    · exact ih _ t h' hnd.2

theorem removeStep_nodes_none (rhs : Pattern) (g : Graph)
    (p : String × String) (k : String) (h : mapLookup g.nodes k = none) :
    mapLookup (removeStep rhs g p).nodes k = none := by
  unfold removeStep
  by_cases hg : rhs.nodes.any (fun n => decide (n.id = p.1)) = true
  · rw [if_pos hg]; exact h
  · rw [if_neg hg]
    show mapLookup (mapRemove g.nodes p.2) k = none
    by_cases hp : p.2 = k
    · rw [hp]; exact mapLookup_remove_self _ _
    · rw [mapLookup_remove_ne _ (Ne.symm hp)]; exact h

theorem foldl_removeStep_none (rhs : Pattern) (l : List (String × String)) :
    ∀ (g : Graph) (k : String), mapLookup g.nodes k = none →
      mapLookup ((l.foldl (removeStep rhs) g)).nodes k = none := by
  induction l with
  | nil => intro g k h; exact h
  | cons p rest ih =>
    intro g k h
    simp only [List.foldl_cons]
    exact ih _ k (removeStep_nodes_none rhs g p k h)

theorem foldl_removeStep_preserve (rhs : Pattern) (l : List (String × String)) :
    ∀ (g : Graph) (k : String),
      (∀ p ∈ l, p.2 = k → rhs.nodes.any (fun n => decide (n.id = p.1)) = true) →
      mapLookup ((l.foldl (removeStep rhs) g)).nodes k = mapLookup g.nodes k := by
  induction l with
  | nil => intro g k _; rfl
  | cons p rest ih =>
    intro g k h
    simp only [List.foldl_cons]
    rw [ih _ k (fun p' hp' => h p' (List.mem_cons_of_mem _ hp'))]
    unfold removeStep
    by_cases hg : rhs.nodes.any (fun n => decide (n.id = p.1)) = true
    · rw [if_pos hg]
    · rw [if_neg hg]
      show mapLookup (mapRemove g.nodes p.2) k = mapLookup g.nodes k
      have hp2 : p.2 ≠ k := fun hc => hg (h p (List.mem_cons_self _ _) hc)
      exact mapLookup_remove_ne _ (Ne.symm hp2)

theorem foldl_removeStep_absent (rhs : Pattern) (l : List (String × String)) :
    ∀ (g : Graph) (pid gid : String), (pid, gid) ∈ l →
      rhs.nodes.any (fun n => decide (n.id = pid)) = false →
      mapLookup ((l.foldl (removeStep rhs) g)).nodes gid = none := by
  induction l with
  | nil => intro g pid gid h _; simp at h
  | cons p rest ih =>
    intro g pid gid hmem hguard
    simp only [List.foldl_cons]
    rcases List.mem_cons.mp hmem with h' | h'
    · subst h'
      apply foldl_removeStep_none
      unfold removeStep
      rw [if_neg (by simp [hguard])]
      show mapLookup (mapRemove g.nodes gid) gid = none
      exact mapLookup_remove_self _ _
    · exact ih _ pid gid h' hguard

theorem foldl_removeStep_edges_mem (rhs : Pattern) (l : List (String × String)) :
    ∀ (g : Graph) (p : String × Edge),
      p ∈ ((l.foldl (removeStep rhs) g)).edges → p ∈ g.edges := by
  induction l with
  | nil => intro g p h; exact h
  | cons q rest ih =>
    intro g p h
    simp only [List.foldl_cons] at h
    have h' := ih _ p h
    unfold removeStep at h'
    by_cases hg : rhs.nodes.any (fun n => decide (n.id = q.1)) = true
    · rw [if_pos hg] at h'; exact h'
    · rw [if_neg hg] at h'
      exact (List.mem_filter.mp h').1

theorem foldl_removeStep_no_incident (rhs : Pattern)
    (l : List (String × String)) :
    ∀ (g : Graph) (pid gid : String), (pid, gid) ∈ l →
      rhs.nodes.any (fun n => decide (n.id = pid)) = false →
      ∀ p ∈ ((l.foldl (removeStep rhs) g)).edges,
        p.2.source ≠ gid ∧ p.2.target ≠ gid := by
  induction l with
  | nil => intro g pid gid h _; simp at h
  | cons q rest ih =>
    intro g pid gid hmem hguard p hp
    simp only [List.foldl_cons] at hp
    rcases List.mem_cons.mp hmem with h' | h'
    · subst h'
      have hsub := foldl_removeStep_edges_mem rhs rest _ p hp
      unfold removeStep at hsub
      rw [if_neg (by simp [hguard])] at hsub
      simp only [Graph.remove_node] at hsub
      have := (List.mem_filter.mp hsub).2
      simpa using this
    · exact ih _ pid gid h' hguard p hp

theorem rhs_new_nodes_inv (m : Match) :
    ∀ (ts : List NodeDeclaration) (acc : List (String × Node)),
      (∀ p ∈ acc, p.2.id = p.1 ∧ p.1 ∉ mapValues m.node_mapping) →
      ∀ p ∈ ts.foldl (newNodeStep m) acc,
        p.2.id = p.1 ∧ p.1 ∉ mapValues m.node_mapping := by
  intro ts
  induction ts with
  | nil => intro acc hacc p hp; exact hacc p hp
  | cons t' rest ih =>
    intro acc hacc
    simp only [List.foldl_cons]
    apply ih
    intro p hp
    unfold newNodeStep at hp
    by_cases hg : resolveNode m t'.id ∈ mapValues m.node_mapping
    · rw [if_pos hg] at hp; exact hacc p hp
    · rw [if_neg hg] at hp
      rcases mem_mapInsert hp with h' | h'
      · exact hacc p h'
      · rw [h']
        exact ⟨buildRhsNode_id _ _, hg⟩

theorem rhs_new_nodes_val (m : Match) (t : NodeDeclaration) :
    ∀ (ts : List NodeDeclaration) (acc : List (String × Node)),
      (∀ t' ∈ ts, t'.id = t.id → t' = t) →
      (∀ p ∈ acc, p.1 = t.id → p.2 = buildRhsNode t.id t) →
      ∀ p ∈ ts.foldl (newNodeStep m) acc, p.1 = t.id →
        p.2 = buildRhsNode t.id t := by
  intro ts
  induction ts with
  | nil => intro acc _ hacc p hp; exact hacc p hp
  | cons t' rest ih =>
    intro acc hts hacc
    simp only [List.foldl_cons]
    apply ih _ (fun t'' h'' => hts t'' (List.mem_cons_of_mem _ h''))
    intro p hp hpk
    unfold newNodeStep at hp
    by_cases hg : resolveNode m t'.id ∈ mapValues m.node_mapping
    · rw [if_pos hg] at hp; exact hacc p hp hpk
    · rw [if_neg hg] at hp
      rcases mem_mapInsert hp with h' | h'
      · exact hacc p h' hpk
      · rw [h'] at hpk ⊢
        simp only at hpk ⊢
        cases hc : mapLookup m.node_mapping t'.id with
        | some mapped =>
          exfalso
          apply hg
          unfold resolveNode
          rw [hc]
          exact mapLookup_some_val_mem hc
        | none =>
          have hrid : resolveNode m t'.id = t'.id := by
            unfold resolveNode; rw [hc]
          rw [hrid] at hpk
          have ht' : t' = t := hts t' (List.mem_cons_self _ _) hpk
          rw [hrid, ht']

theorem rhs_new_nodes_ex (m : Match) (t : NodeDeclaration)
    (hnone : mapLookup m.node_mapping t.id = none)
    (hnv : t.id ∉ mapValues m.node_mapping) :
    ∀ (ts : List NodeDeclaration) (acc : List (String × Node)),
      (t ∈ ts ∨ ∃ p ∈ acc, p.1 = t.id) →
      ∃ p ∈ ts.foldl (newNodeStep m) acc, p.1 = t.id := by
  intro ts
  induction ts with
  | nil =>
    intro acc h
    rcases h with h | h
    · simp at h
    · exact h
  | cons t' rest ih =>
    intro acc h
    simp only [List.foldl_cons]
    have hstep : ∀ acc', (∃ p ∈ acc', p.1 = t.id) →
        ∃ p ∈ newNodeStep m acc' t', p.1 = t.id := by
      intro acc' ⟨p, hp, hpk⟩
      unfold newNodeStep
      by_cases hg : resolveNode m t'.id ∈ mapValues m.node_mapping
      · rw [if_pos hg]; exact ⟨p, hp, hpk⟩
      · rw [if_neg hg]
        by_cases hk : p.1 = resolveNode m t'.id
        · refine ⟨(resolveNode m t'.id, buildRhsNode (resolveNode m t'.id) t'),
            mapInsert_self_mem _ _ _, ?_⟩
          rw [← hk, hpk]
        · exact ⟨p, mem_mapInsert_of_ne hp hk, hpk⟩
    rcases h with h | h
    · rcases List.mem_cons.mp h with h' | h'
      · subst h'
        apply ih
        right
        have hrid : resolveNode m t.id = t.id := by
          unfold resolveNode; rw [hnone]
        unfold newNodeStep
        rw [hrid, if_neg (by simpa using hnv)]
        exact ⟨(t.id, buildRhsNode t.id t), mapInsert_self_mem _ _ _, rfl⟩
      · exact ih _ (Or.inl h')
    · exact ih _ (Or.inr (hstep acc h))

/-- C6.  For every RHS edge template, the rewriter resolves its endpoints
(using the mapped graph node id when the referenced id is match-bound,
otherwise the literal id), constructs a new `Edge` with the template id, the
resolved endpoints, the template's attributes and the template's (absent,
hence empty) type, and adds it, overwriting any existing edge with that id.
Stated under pairwise distinct RHS edge template ids; the post-state records
the construction for each template regardless of the prior graph (overwrite
semantics). -/
theorem rhs_edge_templates_added (r : Rule) (g : Graph) (m : Match)
    (g' : Graph) (t : EdgeDeclaration)
    (hnodup : (r.rhs.edges.map (fun e => e.id)).Nodup)
    (happly : r.apply_transformation g m = .ok g')
    (ht : t ∈ r.rhs.edges) :
    g'.get_edge t.id = some (mkRhsEdge m t)
    ∧ mkRhsEdge m t =
      { id := t.id, source := resolveNode m t.source,
        target := resolveNode m t.target, type := "",
        metadata := attrsToMap t.attributes } := by
  have hg' : add_rhs_edges r.rhs m
      ((rhs_new_nodes r.rhs m).foldl (fun g p => g.add_node p.2)
        (remove_unmatched_nodes r.rhs m g)) = g' := by
    injection happly
  refine ⟨?_, mkRhsEdge_eq m t⟩
  rw [← hg']
  unfold Graph.get_edge add_rhs_edges
  exact foldl_add_edge_lookup m r.rhs.edges _ t ht hnodup

/-- C3 as amended.  For a match with a value-injective node mapping (as the
matcher produces) and pairwise distinct RHS node template ids: every RHS node
template whose id is match-bound leaves the mapped graph node entirely
unchanged (neither deleted nor recreated, no type/attribute reapplication),
and every RHS node template whose id is neither a match key NOR equal to any
match-bound graph node id produces a fresh node with the template id, type
and attributes.  (The extra non-collision proviso is forced by the
counterexample: a template id colliding with a bound graph node id creates
nothing.) -/
theorem rhs_node_templates_frame (r : Rule) (g : Graph) (m : Match)
    (g' : Graph) (t : NodeDeclaration)
    (hinj : ∀ p1 p2 gid, (p1, gid) ∈ m.node_mapping →
      (p2, gid) ∈ m.node_mapping → p1 = p2)
    (hnodup : (r.rhs.nodes.map (fun n => n.id)).Nodup)
    (happly : r.apply_transformation g m = .ok g')
    (ht : t ∈ r.rhs.nodes) :
    (∀ gid, mapLookup m.node_mapping t.id = some gid →
        g'.get_node gid = g.get_node gid)
    ∧ (mapLookup m.node_mapping t.id = none →
        t.id ∉ mapValues m.node_mapping →
        g'.get_node t.id = some (buildRhsNode t.id t)
        ∧ buildRhsNode t.id t =
          { id := t.id, type := t.node_type.getD "",
            metadata := attrsToMap t.attributes, x := 0, y := 0 }) := by
  have hg' : add_rhs_edges r.rhs m
      ((rhs_new_nodes r.rhs m).foldl (fun g p => g.add_node p.2)
        (remove_unmatched_nodes r.rhs m g)) = g' := by
    injection happly
  have hnodes4 : ∀ gg : Graph, (add_rhs_edges r.rhs m gg).nodes = gg.nodes := by
    intro gg
    unfold add_rhs_edges
    exact foldl_add_edge_nodes m r.rhs.edges gg
  have hinv : ∀ p ∈ rhs_new_nodes r.rhs m,
      p.2.id = p.1 ∧ p.1 ∉ mapValues m.node_mapping := by
    intro p hp
    exact rhs_new_nodes_inv m r.rhs.nodes [] (by simp) p hp
  constructor
  · intro gid hgid
    have hgidval : gid ∈ mapValues m.node_mapping := mapLookup_some_val_mem hgid
    rw [← hg']
    unfold Graph.get_node
    rw [hnodes4]
    rw [foldl_add_node_pairs_preserve _ _ gid
      (fun p hp => by
        rw [(hinv p hp).1]
        exact fun hc => (hinv p hp).2 (hc ▸ hgidval))]
    unfold remove_unmatched_nodes
    apply foldl_removeStep_preserve
    intro p hp hpk
    have hpid : p.1 = t.id := by
      have := hinj p.1 t.id gid (by rw [← hpk]; exact hp) (mapLookup_mem hgid)
      exact this
    rw [List.any_eq_true]
    exact ⟨t, ht, by simp [hpid]⟩
  · intro hnone hnv
    refine ⟨?_, buildRhsNode_eq _ _⟩
    rw [← hg']
    unfold Graph.get_node
    rw [hnodes4]
    apply foldl_add_node_pairs_lookup
    · exact rhs_new_nodes_ex m t hnone hnv r.rhs.nodes [] (Or.inl ht)
    · apply rhs_new_nodes_val m t r.rhs.nodes []
      · intro t' ht' heq
        exact List.inj_on_of_nodup_map hnodup ht' ht heq
      · simp
    · exact fun p hp => (hinv p hp).1

/-- C5.  Every match-bound graph node whose pattern-local LHS id does not
occur among the RHS node template ids is deleted: it is absent from the final
graph, and after the deletion phase no edge incident to it survives (the
cascading delete).  The incident-edge property is stated on the deletion
phase's output because RHS edge templates may subsequently add fresh edges,
which the store tolerates even when dangling. -/
theorem lhs_only_nodes_deleted (r : Rule) (g : Graph) (m : Match) (g' : Graph)
    (pid gid : String)
    (hmem : (pid, gid) ∈ m.node_mapping)
    (habs : ∀ t ∈ r.rhs.nodes, t.id ≠ pid)
    (happly : r.apply_transformation g m = .ok g') :
    g'.get_node gid = none
    ∧ ∀ p ∈ (remove_unmatched_nodes r.rhs m g).edges,
        p.2.source ≠ gid ∧ p.2.target ≠ gid := by
  have hg' : add_rhs_edges r.rhs m
      ((rhs_new_nodes r.rhs m).foldl (fun g p => g.add_node p.2)
        (remove_unmatched_nodes r.rhs m g)) = g' := by
    injection happly
  have hguard : r.rhs.nodes.any (fun n => decide (n.id = pid)) = false := by
    rw [List.any_eq_false]
    intro t ht
    simpa using habs t ht
  have hgidval : gid ∈ mapValues m.node_mapping :=
    List.mem_map_of_mem _ hmem
  constructor
  · rw [← hg']
    unfold Graph.get_node
    rw [show (add_rhs_edges r.rhs m
        ((rhs_new_nodes r.rhs m).foldl (fun g p => g.add_node p.2)
          (remove_unmatched_nodes r.rhs m g))).nodes =
        ((rhs_new_nodes r.rhs m).foldl (fun g p => g.add_node p.2)
          (remove_unmatched_nodes r.rhs m g)).nodes from by
      unfold add_rhs_edges
      exact foldl_add_edge_nodes m r.rhs.edges _]
    rw [foldl_add_node_pairs_preserve _ _ gid
      (fun p hp => by
        have hinvp := rhs_new_nodes_inv m r.rhs.nodes [] (by simp) p hp
        rw [hinvp.1]
        exact fun hc => hinvp.2 (hc ▸ hgidval))]
    unfold remove_unmatched_nodes
    exact foldl_removeStep_absent r.rhs m.node_mapping g pid gid hmem hguard
  · unfold remove_unmatched_nodes
    exact foldl_removeStep_no_incident r.rhs m.node_mapping g pid gid hmem hguard


/-- Witness for C6: a rule whose RHS edge template `e` loops `A` to itself
with attribute `w=1`, applied to `{A ↦ n1}`, yields the edge
`e : n1 → n1` with the resolved endpoints and the attribute. -/
theorem rhs_edge_templates_added_witness :
    (⟨[("n1", Node.new "n1")],
      [("e", { id := "e", source := "n1", target := "n1", type := "",
               metadata := [("w", .integer 1)] })]⟩ : Graph).get_edge "e" =
      some (mkRhsEdge ⟨[("A", "n1")], []⟩ ⟨"e", "A", "A", true, [("w", .integer 1)]⟩) :=
  (rhs_edge_templates_added
    { name := "w6", lhs := { nodes := [⟨"A", none, []⟩], edges := [] },
      rhs := { nodes := [⟨"A", none, []⟩],
               edges := [⟨"e", "A", "A", true, [("w", .integer 1)]⟩] } }
    (Graph.new.add_node (Node.new "n1")) ⟨[("A", "n1")], []⟩
    ⟨[("n1", Node.new "n1")],
      [("e", { id := "e", source := "n1", target := "n1", type := "",
               metadata := [("w", .integer 1)] })]⟩
    ⟨"e", "A", "A", true, [("w", .integer 1)]⟩
    (by decide) (by rfl) (by decide)).1

/-- Witness for C3 (amended): with `{A ↦ n1}`, the brand-new template `B2`
(type `t2`, attribute `k=1`) produces exactly the fresh node `B2`, while the
preserved node `n1` is unchanged. -/
theorem rhs_node_templates_frame_witness :
    ((⟨[("n1", Node.new "n1"),
        ("B2", { id := "B2", type := "t2",
                 metadata := [("k", .integer 1)], x := 0, y := 0 })],
       []⟩ : Graph).get_node "B2" =
      some (buildRhsNode "B2" ⟨"B2", some "t2", [("k", .integer 1)]⟩)) :=
  ((rhs_node_templates_frame
    { name := "w3", lhs := { nodes := [⟨"A", none, []⟩], edges := [] },
      rhs := { nodes := [⟨"A", none, []⟩, ⟨"B2", some "t2", [("k", .integer 1)]⟩],
               edges := [] } }
    (Graph.new.add_node (Node.new "n1")) ⟨[("A", "n1")], []⟩
    ⟨[("n1", Node.new "n1"),
      ("B2", { id := "B2", type := "t2",
               metadata := [("k", .integer 1)], x := 0, y := 0 })], []⟩
    ⟨"B2", some "t2", [("k", .integer 1)]⟩
    (fun p1 p2 gid h1 h2 => by
      simp only [List.mem_singleton, Prod.mk.injEq] at h1 h2
      rw [h1.1, h2.1])
    (by decide) (by rfl) (by decide)).2 (by rfl) (by decide)).1

/-- Witness for C5: a node-erasing rule (`A` in LHS, absent from RHS) deletes
the bound node `n1` and its incident edge. -/
theorem lhs_only_nodes_deleted_witness :
    (⟨[("n2", Node.new "n2")], []⟩ : Graph).get_node "n1" = none :=
  (lhs_only_nodes_deleted
    { name := "w5", lhs := { nodes := [⟨"A", none, []⟩], edges := [] },
      rhs := { nodes := [], edges := [] } }
    (((Graph.new.add_node (Node.new "n1")).add_node
      (Node.new "n2")).add_edge (Edge.new "e1" "n1" "n2"))
    ⟨[("A", "n1")], []⟩ ⟨[("n2", Node.new "n2")], []⟩ "A" "n1"
    (by decide) (by simp) (by rfl)).1

/-! ## C9: node and edge counts of the complete-graph generator

The edge and node ids are decimal-formatted strings; the counting argument
needs that `Nat.repr` is injective and produces no underscore, proved below
from the core definition of `Nat.toDigitsCore`. -/
theorem toDigitsCore_append (fuel : Nat) :
    ∀ (n : Nat) (ds : List Char),
      Nat.toDigitsCore 10 fuel n ds = Nat.toDigitsCore 10 fuel n [] ++ ds := by
  induction fuel with
  | zero => intro n ds; rfl
  | succ fuel ih =>
    intro n ds
    simp only [Nat.toDigitsCore]
    by_cases h : n / 10 = 0
    · rw [if_pos h, if_pos h]; rfl
    · rw [if_neg h, if_neg h]
      rw [ih (n / 10) [Nat.digitChar (n % 10)],
        ih (n / 10) (Nat.digitChar (n % 10) :: ds)]
      simp

def digitVal (c : Char) : Nat := c.toNat - '0'.toNat

def strVal (l : List Char) : Nat := l.foldl (fun a c => 10 * a + digitVal c) 0

theorem digitVal_digitChar (d : Nat) (h : d < 10) :
    digitVal (Nat.digitChar d) = d := by
  interval_cases d <;> rfl

theorem strVal_append_singleton (l : List Char) (c : Char) :
    strVal (l ++ [c]) = 10 * strVal l + digitVal c := by
  unfold strVal
  rw [List.foldl_append]
  rfl

theorem strVal_toDigitsCore (fuel : Nat) :
    ∀ n : Nat, n < fuel → strVal (Nat.toDigitsCore 10 fuel n []) = n := by
  induction fuel with
  | zero => intro n h; omega
  | succ fuel ih =>
    intro n h
    simp only [Nat.toDigitsCore]
    by_cases hd : n / 10 = 0
    · rw [if_pos hd]
      have hn : n < 10 := by omega
      show strVal [Nat.digitChar (n % 10)] = n
      have : strVal [Nat.digitChar (n % 10)] = digitVal (Nat.digitChar (n % 10)) := by
        unfold strVal; simp [List.foldl]
      rw [this, digitVal_digitChar _ (Nat.mod_lt _ (by norm_num)),
        Nat.mod_eq_of_lt hn]
    · rw [if_neg hd]
      rw [toDigitsCore_append fuel (n / 10) [Nat.digitChar (n % 10)]]
      rw [strVal_append_singleton]
      have hlt : n / 10 < fuel := by
        have h1 : n / 10 < n := Nat.div_lt_self (by omega) (by norm_num)
        omega
      rw [ih (n / 10) hlt, digitVal_digitChar _ (Nat.mod_lt _ (by norm_num))]
      omega

theorem natRepr_injective : Function.Injective Nat.repr := by
  intro a b h
  have ha : strVal (Nat.toDigits 10 a) = a :=
    strVal_toDigitsCore (a + 1) a (by omega)
  have hb : strVal (Nat.toDigits 10 b) = b :=
    strVal_toDigitsCore (b + 1) b (by omega)
  unfold Nat.repr at h
  have hdl : Nat.toDigits 10 a = Nat.toDigits 10 b := by
    have := congrArg String.data h
    simpa [List.asString] using this
  rw [← ha, ← hb, hdl]

theorem underscore_not_mem_toDigitsCore (fuel : Nat) :
    ∀ (n : Nat) (ds : List Char), '_' ∉ ds →
      '_' ∉ Nat.toDigitsCore 10 fuel n ds := by
  induction fuel with
  | zero => intro n ds h; exact h
  | succ fuel ih =>
    intro n ds h
    simp only [Nat.toDigitsCore]
    have hdig : Nat.digitChar (n % 10) ≠ '_' := by
      have hlt : n % 10 < 10 := Nat.mod_lt _ (by norm_num)
      set d := n % 10 with hd
      interval_cases d <;> decide
    by_cases hd : n / 10 = 0
    · rw [if_pos hd]
      intro hc
      rcases List.mem_cons.mp hc with hc' | hc'
      · exact hdig hc'.symm
      · exact h hc'
    · rw [if_neg hd]
      apply ih
      intro hc
      rcases List.mem_cons.mp hc with hc' | hc'
      · exact hdig hc'.symm
      · exact h hc'

theorem underscore_not_mem_repr (n : Nat) : '_' ∉ (Nat.repr n).data := by
  unfold Nat.repr
  have : (Nat.toDigits 10 n).asString.data = Nat.toDigits 10 n := by
    simp [List.asString]
  rw [this]
  exact underscore_not_mem_toDigitsCore (n + 1) n [] (by simp)

theorem append_sep_inj :
    ∀ (a c b d : List Char), '_' ∉ a → '_' ∉ c →
      a ++ '_' :: b = c ++ '_' :: d → a = c ∧ b = d := by
  intro a
  induction a with
  | nil =>
    intro c b d _ hc h
    cases c with
    | nil => simp at h; exact ⟨rfl, h⟩
    | cons x c' =>
      simp at h
      exact absurd (by rw [h.1]; exact List.mem_cons_self _ _) hc
  | cons x a' ih =>
    intro c b d ha hc h
    cases c with
    | nil =>
      simp at h
      exact absurd (by rw [← h.1]; exact List.mem_cons_self _ _) ha
    | cons y c' =>
      simp only [List.cons_append, List.cons.injEq] at h
      obtain ⟨hxy, h'⟩ := h
      have ha' : '_' ∉ a' := fun hm => ha (List.mem_cons_of_mem _ hm)
      have hc' : '_' ∉ c' := fun hm => hc (List.mem_cons_of_mem _ hm)
      obtain ⟨h1, h2⟩ := ih c' b d ha' hc' h'
      exact ⟨by rw [hxy, h1], h2⟩

theorem string_eq_of_data_eq {a b : String} (h : a.data = b.data) : a = b := by
  cases a with
  | mk da =>
    cases b with
    | mk db =>
      have hdd : da = db := by simpa using h
      rw [hdd]

theorem eId_inj {i j k l : Nat} (h : eId i j = eId k l) : i = k ∧ j = l := by
  unfold eId at h
  have hd := congrArg String.data h
  simp only [String.data_append, List.append_assoc] at hd
  have hd' : ('e' : Char) :: ((Nat.repr i).data ++ '_' :: (Nat.repr j).data) =
      'e' :: ((Nat.repr k).data ++ '_' :: (Nat.repr l).data) := by
    simpa using hd
  have h2 := List.cons.inj hd'
  obtain ⟨h3, h4⟩ := append_sep_inj _ _ _ _
    (underscore_not_mem_repr i) (underscore_not_mem_repr k) h2.2
  exact ⟨natRepr_injective (string_eq_of_data_eq h3),
    natRepr_injective (string_eq_of_data_eq h4)⟩

theorem prefix_repr_inj {pfx : String} {i k : Nat}
    (h : pfx ++ Nat.repr i = pfx ++ Nat.repr k) : i = k := by
  have hd := congrArg String.data h
  simp only [String.data_append] at hd
  exact natRepr_injective (string_eq_of_data_eq (List.append_cancel_left hd))

theorem mapLookup_eq_none_iff {α : Type} {m : List (String × α)} {k : String} :
    mapLookup m k = none ↔ k ∉ mapKeys m := by
  induction m with
  | nil => simp [mapLookup, mapKeys]
  | cons p rest ih =>
    obtain ⟨k₀, v₀⟩ := p
    simp only [mapLookup, mapKeys, List.map_cons, List.mem_cons]
    by_cases hk : k₀ = k
    · subst hk
      simp
    · rw [if_neg hk]
      simp only [mapKeys] at ih
      rw [ih]
      constructor
      · intro h hc
        rcases hc with hc | hc
        · exact hk hc.symm
        · exact h hc
      · intro h hc
        exact h (Or.inr hc)

theorem mapInsert_fresh_eq {α : Type} {m : List (String × α)} {k : String}
    (v : α) (h : k ∉ mapKeys m) : mapInsert m k v = m ++ [(k, v)] := by
  induction m with
  | nil => rfl
  | cons p rest ih =>
    obtain ⟨k₀, v₀⟩ := p
    simp only [mapKeys, List.map_cons, List.mem_cons] at h
    push_neg at h
    simp only [mapInsert]
    rw [if_neg (fun hc => h.1 hc.symm), ih (by simpa [mapKeys] using h.2)]
    rfl

theorem foldl_add_node_f_edges {α : Type} (f : α → Node) (l : List α) :
    ∀ g : Graph, ((l.foldl (fun g a => g.add_node (f a)) g)).edges = g.edges := by
  induction l with
  | nil => intro g; rfl
  | cons a rest ih => intro g; simp only [List.foldl_cons]; rw [ih]; rfl

theorem foldl_add_edge_f_nodes {α : Type} (f : α → Edge) (l : List α) :
    ∀ g : Graph, ((l.foldl (fun g a => g.add_edge (f a)) g)).nodes = g.nodes := by
  induction l with
  | nil => intro g; rfl
  | cons a rest ih => intro g; simp only [List.foldl_cons]; rw [ih]; rfl

theorem foldl_add_node_count {α : Type} (f : α → Node) :
    ∀ (l : List α) (g : Graph),
      (l.map (fun a => (f a).id)).Nodup →
      (∀ a ∈ l, (f a).id ∉ mapKeys g.nodes) →
      ((l.foldl (fun g a => g.add_node (f a)) g)).nodes.length =
        g.nodes.length + l.length := by
  intro l
  induction l with
  | nil => intro g _ _; simp
  | cons a rest ih =>
    intro g hnd hfresh
    simp only [List.map_cons, List.nodup_cons] at hnd
    simp only [List.foldl_cons]
    have hfa : (f a).id ∉ mapKeys g.nodes := hfresh a (List.mem_cons_self _ _)
    have heq : (g.add_node (f a)).nodes = g.nodes ++ [((f a).id, f a)] := by
      show mapInsert g.nodes (f a).id (f a) = _
      exact mapInsert_fresh_eq _ hfa
    have hkeys : mapKeys (g.add_node (f a)).nodes =
        mapKeys g.nodes ++ [(f a).id] := by
      rw [heq]; simp [mapKeys]
    rw [ih (g.add_node (f a)) hnd.2 (fun b hb => by
      rw [hkeys]
      intro hc
      rcases List.mem_append.mp hc with hc' | hc'
      · exact hfresh b (List.mem_cons_of_mem _ hb) hc'
      · exact hnd.1 (by
          rw [List.mem_singleton] at hc'
          rw [← hc']
          exact List.mem_map_of_mem _ hb))]
    rw [heq]
    simp
    omega

theorem foldl_add_edge_count {α : Type} (f : α → Edge) :
    ∀ (l : List α) (g : Graph),
      (l.map (fun a => (f a).id)).Nodup →
      (∀ a ∈ l, (f a).id ∉ mapKeys g.edges) →
      ((l.foldl (fun g a => g.add_edge (f a)) g)).edges.length =
        g.edges.length + l.length := by
  intro l
  induction l with
  | nil => intro g _ _; simp
  | cons a rest ih =>
    intro g hnd hfresh
    simp only [List.map_cons, List.nodup_cons] at hnd
    simp only [List.foldl_cons]
    have hfa : (f a).id ∉ mapKeys g.edges := hfresh a (List.mem_cons_self _ _)
    have heq : (g.add_edge (f a)).edges = g.edges ++ [((f a).id, f a)] := by
      show mapInsert g.edges (f a).id (f a) = _
      exact mapInsert_fresh_eq _ hfa
    have hkeys : mapKeys (g.add_edge (f a)).edges =
        mapKeys g.edges ++ [(f a).id] := by
      rw [heq]; simp [mapKeys]
    rw [ih (g.add_edge (f a)) hnd.2 (fun b hb => by
      rw [hkeys]
      intro hc
      rcases List.mem_append.mp hc with hc' | hc'
      · exact hfresh b (List.mem_cons_of_mem _ hb) hc'
      · exact hnd.1 (by
          rw [List.mem_singleton] at hc'
          rw [← hc']
          exact List.mem_map_of_mem _ hb))]
    rw [heq]
    simp
    omega

theorem foldl_nested {α β γ : Type} (f : γ → α → β → γ) :
    ∀ (outer : List α) (inner : α → List β) (init : γ),
      outer.foldl (fun c a => (inner a).foldl (fun c b => f c a b) c) init =
        (outer.flatMap (fun a => (inner a).map (fun b => (a, b)))).foldl
          (fun c p => f c p.1 p.2) init := by
  intro outer
  induction outer with
  | nil => intro inner init; rfl
  | cons a rest ih =>
    intro inner init
    simp only [List.foldl_cons, List.flatMap_cons, List.foldl_append]
    rw [ih]
    congr 1
    rw [List.foldl_map]

theorem foldl_ite_filter {γ α : Type} (P : α → Prop) [DecidablePred P]
    (f : γ → α → γ) :
    ∀ (l : List α) (init : γ),
      l.foldl (fun c a => if P a then f c a else c) init =
        (l.filter (fun a => decide (P a))).foldl f init := by
  intro l
  induction l with
  | nil => intro init; rfl
  | cons a rest ih =>
    intro init
    simp only [List.foldl_cons, List.filter_cons]
    by_cases h : P a
    · rw [if_pos h, if_pos (by simpa using h)]
      simp only [List.foldl_cons]
      exact ih _
    · rw [if_neg h, if_neg (by simpa using h)]
      exact ih _

def pairsU (N : Nat) : List (Nat × Nat) :=
  (List.range N).flatMap
    (fun i => (List.range' (i + 1) (N - (i + 1))).map (fun j => (i, j)))

def pairsD (N : Nat) : List (Nat × Nat) :=
  (List.range N).flatMap (fun i => (List.range N).map (fun j => (i, j)))

theorem sum_range_sub (N : Nat) :
    2 * ((List.range N).map (fun i => N - (i + 1))).sum = N * (N - 1) := by
  induction N with
  | zero => rfl
  | succ N ih =>
    rw [List.range_succ_eq_map]
    simp only [List.map_cons, List.map_map, List.sum_cons]
    have hcomp : ((fun i => N + 1 - (i + 1)) ∘ Nat.succ) =
        (fun i => N - (i + 1)) := by
      funext i
      simp only [Function.comp]
      omega
    rw [hcomp]
    have h0 : N + 1 - (0 + 1) = N := by omega
    rw [h0]
    cases N with
    | zero => simp
    | succ M =>
      simp only [Nat.succ_sub_one] at ih ⊢
      calc 2 * (M + 1 + ((List.range (M + 1)).map (fun i => M + 1 - (i + 1))).sum)
          = 2 * (M + 1) + 2 * ((List.range (M + 1)).map (fun i => M + 1 - (i + 1))).sum := by ring
        _ = 2 * (M + 1) + (M + 1) * M := by rw [ih]
        _ = (M + 1 + 1) * (M + 1) := by ring

theorem sum_range_sub_div (N : Nat) :
    ((List.range N).map (fun i => N - (i + 1))).sum = N * (N - 1) / 2 := by
  have h := sum_range_sub N
  omega

theorem pairsU_fst_lt_snd (N : Nat) : ∀ p ∈ pairsU N, p.1 < p.2 := by
  intro p hp
  unfold pairsU at hp
  rw [List.mem_flatMap] at hp
  obtain ⟨i, _, hpi⟩ := hp
  rw [List.mem_map] at hpi
  obtain ⟨j, hj, rfl⟩ := hpi
  have hj' : i + 1 ≤ j := by
    rw [List.mem_range'] at hj
    obtain ⟨k, _, rfl⟩ := hj
    omega
  show i < j
  omega

theorem pairsU_nodup (N : Nat) : (pairsU N).Nodup := by
  unfold pairsU
  rw [List.nodup_flatMap]
  constructor
  · intro i _
    apply List.Nodup.map
    · intro a b hab
      simpa using hab
    · exact List.nodup_range' _ _
  · apply (List.nodup_range N).imp
    intro a b hab p hpa hpb
    rw [List.mem_map] at hpa hpb
    obtain ⟨ja, _, rfl⟩ := hpa
    obtain ⟨jb, _, hjb⟩ := hpb
    exact hab (congrArg Prod.fst hjb).symm

theorem pairsU_length (N : Nat) : (pairsU N).length = N * (N - 1) / 2 := by
  unfold pairsU
  rw [List.length_flatMap]
  refine Eq.trans (congrArg List.sum (List.map_congr_left ?_))
    (sum_range_sub_div N)
  intro i _
  show ((List.range' (i + 1) (N - (i + 1))).map (fun j => (i, j))).length =
    N - (i + 1)
  rw [List.length_map, List.length_range']

theorem pairsD_nodup (N : Nat) : (pairsD N).Nodup := by
  unfold pairsD
  rw [List.nodup_flatMap]
  constructor
  · intro i _
    apply List.Nodup.map
    · intro a b hab
      simpa using hab
    · exact List.nodup_range N
  · apply (List.nodup_range N).imp
    intro a b hab p hpa hpb
    rw [List.mem_map] at hpa hpb
    obtain ⟨ja, _, rfl⟩ := hpa
    obtain ⟨jb, _, hjb⟩ := hpb
    exact hab (congrArg Prod.fst hjb).symm

theorem sum_map_const_nat {α : Type} (l : List α) (c : Nat) :
    (l.map (fun _ => c)).sum = l.length * c := by
  induction l with
  | nil => simp
  | cons a rest ih =>
    simp only [List.map_cons, List.sum_cons, List.length_cons, ih]
    ring

theorem length_filter_ne_range :
    ∀ (N i : Nat), i < N →
      ((List.range N).filter (fun j => decide (i ≠ j))).length = N - 1 := by
  intro N
  induction N with
  | zero => intro i h; omega
  | succ N ih =>
    intro i h
    rw [List.range_succ, List.filter_append, List.length_append]
    by_cases hi : i = N
    · subst hi
      have h1 : (List.range i).filter (fun j => decide (i ≠ j)) = List.range i := by
        rw [List.filter_eq_self]
        intro a ha
        rw [List.mem_range] at ha
        simp
        omega
      rw [h1]
      simp
    · have hi' : i < N := by omega
      rw [ih i hi']
      have h2 : (List.filter (fun j => decide (i ≠ j)) [N]).length = 1 := by
        simp [List.filter_cons, hi]
      rw [h2]
      omega

theorem pairsD_filter_length (N : Nat) :
    ((pairsD N).filter (fun p => decide (p.1 ≠ p.2))).length = N * (N - 1) := by
  unfold pairsD
  rw [List.filter_flatMap, List.length_flatMap]
  have hstep : ∀ i ∈ List.range N,
      (((List.range N).map (fun j => (i, j))).filter
        (fun p => decide (p.1 ≠ p.2))).length = N - 1 := by
    intro i hi
    rw [List.mem_range] at hi
    rw [List.filter_map, List.length_map]
    have hpc : ((fun p : Nat × Nat => decide (p.1 ≠ p.2)) ∘ (fun j => (i, j))) =
        (fun j => decide (i ≠ j)) := by
      funext j
      rfl
    rw [hpc]
    exact length_filter_ne_range N i hi
  calc (List.map (List.length ∘ fun a =>
          (List.map (fun j => (a, j)) (List.range N)).filter
            (fun p => decide (p.1 ≠ p.2))) (List.range N)).sum
      = ((List.range N).map (fun _ => N - 1)).sum := by
        apply congrArg List.sum
        apply List.map_congr_left
        intro i hi
        exact hstep i hi
    _ = N * (N - 1) := by
        rw [sum_map_const_nat]
        simp

theorem generate_complete_undir_eq (N : Nat) :
    generate_complete [("nodes", MetadataValue.integer (N : Int))] =
      .ok ((List.range N).foldl (fun g i =>
        (completeInner false i N).foldl (fun g j =>
          if i ≠ j then
            g.add_edge (Edge.new (eId i j)
              ("n" ++ Nat.repr i) ("n" ++ Nat.repr j))
          else g) g)
        ((List.range N).foldl
          (fun g i => g.add_node (Node.new ("n" ++ Nat.repr i))) Graph.new)) := by
  have h2 : ¬("nodes" : String) = "prefix" := by decide
  have h3 : ¬("nodes" : String) = "directed" := by decide
  have h4 : ¬((N : Int) < 0) := by
    simp
  unfold generate_complete get_param_int get_param_string get_param_bool
  simp [mapLookup, h2, h3, h4]

theorem generate_complete_dir_eq (N : Nat) :
    generate_complete [("nodes", MetadataValue.integer (N : Int)),
        ("directed", MetadataValue.boolean true)] =
      .ok ((List.range N).foldl (fun g i =>
        (completeInner true i N).foldl (fun g j =>
          if i ≠ j then
            g.add_edge (Edge.new (eId i j)
              ("n" ++ Nat.repr i) ("n" ++ Nat.repr j))
          else g) g)
        ((List.range N).foldl
          (fun g i => g.add_node (Node.new ("n" ++ Nat.repr i))) Graph.new)) := by
  have h2 : ¬("nodes" : String) = "prefix" := by decide
  have h3 : ¬("nodes" : String) = "directed" := by decide
  have h5 : ¬("directed" : String) = "prefix" := by decide
  have h4 : ¬((N : Int) < 0) := by simp
  unfold generate_complete get_param_int get_param_string get_param_bool
  simp [mapLookup, h2, h3, h4, h5]

theorem complete_nodes_fold_count (N : Nat) :
    ((List.range N).foldl
      (fun g i => g.add_node (Node.new ("n" ++ Nat.repr i))) Graph.new).nodes.length = N := by
  have h := foldl_add_node_count (fun i : Nat => Node.new ("n" ++ Nat.repr i))
    (List.range N) Graph.new
    (List.Nodup.map (fun a b hab => prefix_repr_inj hab) (List.nodup_range N))
    (fun a _ => by simp [Graph.new, mapKeys])
  simpa [Graph.new] using h

theorem complete_nodes_fold_edges (N : Nat) :
    ((List.range N).foldl
      (fun g i => g.add_node (Node.new ("n" ++ Nat.repr i))) Graph.new).edges = [] := by
  have h := foldl_add_node_f_edges (fun i : Nat => Node.new ("n" ++ Nat.repr i))
    (List.range N) Graph.new
  simpa [Graph.new] using h

theorem complete_edges_fold_undir (N : Nat) (g0 : Graph) :
    (List.range N).foldl (fun g i =>
      (completeInner false i N).foldl (fun g j =>
        if i ≠ j then
          g.add_edge (Edge.new (eId i j) ("n" ++ Nat.repr i) ("n" ++ Nat.repr j))
        else g) g) g0
    = (pairsU N).foldl (fun g p =>
        g.add_edge (Edge.new (eId p.1 p.2)
          ("n" ++ Nat.repr p.1) ("n" ++ Nat.repr p.2))) g0 := by
  have h1 := foldl_nested
    (fun (g : Graph) (i j : Nat) =>
      if i ≠ j then
        g.add_edge (Edge.new (eId i j) ("n" ++ Nat.repr i) ("n" ++ Nat.repr j))
      else g)
    (List.range N) (fun i => List.range' (i + 1) (N - (i + 1))) g0
  have h2 := foldl_ite_filter
    (fun p : Nat × Nat => p.1 ≠ p.2)
    (fun (g : Graph) (p : Nat × Nat) =>
      g.add_edge (Edge.new (eId p.1 p.2)
        ("n" ++ Nat.repr p.1) ("n" ++ Nat.repr p.2)))
    (pairsU N) g0
  have h3 : (pairsU N).filter (fun p => decide (p.1 ≠ p.2)) = pairsU N :=
    List.filter_eq_self.mpr (fun p hp => by
      simpa using Nat.ne_of_lt (pairsU_fst_lt_snd N p hp))
  rw [h3] at h2
  exact h1.trans h2

theorem complete_edges_fold_dir (N : Nat) (g0 : Graph) :
    (List.range N).foldl (fun g i =>
      (completeInner true i N).foldl (fun g j =>
        if i ≠ j then
          g.add_edge (Edge.new (eId i j) ("n" ++ Nat.repr i) ("n" ++ Nat.repr j))
        else g) g) g0
    = ((pairsD N).filter (fun p => decide (p.1 ≠ p.2))).foldl (fun g p =>
        g.add_edge (Edge.new (eId p.1 p.2)
          ("n" ++ Nat.repr p.1) ("n" ++ Nat.repr p.2))) g0 := by
  have hinner : ∀ i, completeInner true i N = List.range N := by
    intro i
    unfold completeInner
    simp [List.range_eq_range']
  simp only [hinner]
  have h1 := foldl_nested
    (fun (g : Graph) (i j : Nat) =>
      if i ≠ j then
        g.add_edge (Edge.new (eId i j) ("n" ++ Nat.repr i) ("n" ++ Nat.repr j))
      else g)
    (List.range N) (fun _ => List.range N) g0
  have h2 := foldl_ite_filter
    (fun p : Nat × Nat => p.1 ≠ p.2)
    (fun (g : Graph) (p : Nat × Nat) =>
      g.add_edge (Edge.new (eId p.1 p.2)
        ("n" ++ Nat.repr p.1) ("n" ++ Nat.repr p.2)))
    (pairsD N) g0
  exact h1.trans h2

theorem complete_pairs_edge_count_undir (N : Nat) (g0 : Graph)
    (h0 : g0.edges = []) :
    (((pairsU N).foldl (fun g p =>
        g.add_edge (Edge.new (eId p.1 p.2)
          ("n" ++ Nat.repr p.1) ("n" ++ Nat.repr p.2))) g0)).edges.length =
      N * (N - 1) / 2 := by
  have h := foldl_add_edge_count
    (fun p : Nat × Nat => Edge.new (eId p.1 p.2)
      ("n" ++ Nat.repr p.1) ("n" ++ Nat.repr p.2))
    (pairsU N) g0
    (List.Nodup.map
      (fun p q hpq => by
        obtain ⟨h1, h2⟩ := eId_inj hpq
        exact Prod.ext h1 h2)
      (pairsU_nodup N))
    (fun p _ => by simp [h0, mapKeys])
  rw [h, h0, pairsU_length]
  simp

theorem complete_pairs_edge_count_dir (N : Nat) (g0 : Graph)
    (h0 : g0.edges = []) :
    ((((pairsD N).filter (fun p => decide (p.1 ≠ p.2))).foldl (fun g p =>
        g.add_edge (Edge.new (eId p.1 p.2)
          ("n" ++ Nat.repr p.1) ("n" ++ Nat.repr p.2))) g0)).edges.length =
      N * (N - 1) := by
  have h := foldl_add_edge_count
    (fun p : Nat × Nat => Edge.new (eId p.1 p.2)
      ("n" ++ Nat.repr p.1) ("n" ++ Nat.repr p.2))
    ((pairsD N).filter (fun p => decide (p.1 ≠ p.2))) g0
    (List.Nodup.map
      (fun p q hpq => by
        obtain ⟨h1, h2⟩ := eId_inj hpq
        exact Prod.ext h1 h2)
      (List.Nodup.filter _ (pairsD_nodup N)))
    (fun p _ => by simp [h0, mapKeys])
  rw [h, h0, pairsD_filter_length]
  simp

/-- C9.  For every `N ≥ 0`, the complete-graph generator invoked with
`nodes = N` produces exactly `N` nodes and `N(N-1)/2` edges by default
(undirected), and exactly `N` nodes and `N(N-1)` edges with
`directed = true`. -/
theorem generate_complete_counts (N : Nat) :
    (generate_complete [("nodes", .integer (N : Int))]).map Graph.node_count =
      .ok N
    ∧ (generate_complete [("nodes", .integer (N : Int))]).map Graph.edge_count =
      .ok (N * (N - 1) / 2)
    ∧ (generate_complete [("nodes", .integer (N : Int)),
        ("directed", .boolean true)]).map Graph.node_count = .ok N
    ∧ (generate_complete [("nodes", .integer (N : Int)),
        ("directed", .boolean true)]).map Graph.edge_count =
      .ok (N * (N - 1)) := by
  have hU := generate_complete_undir_eq N
  have hD := generate_complete_dir_eq N
  have hfoldU := complete_edges_fold_undir N
    ((List.range N).foldl
      (fun g i => g.add_node (Node.new ("n" ++ Nat.repr i))) Graph.new)
  have hfoldD := complete_edges_fold_dir N
    ((List.range N).foldl
      (fun g i => g.add_node (Node.new ("n" ++ Nat.repr i))) Graph.new)
  refine ⟨?_, ?_, ?_, ?_⟩
  · rw [hU, Except.map, hfoldU]
    show Except.ok (Graph.node_count _) = _
    rw [Graph.node_count, foldl_add_edge_f_nodes, complete_nodes_fold_count]
  · rw [hU, Except.map, hfoldU]
    show Except.ok (Graph.edge_count _) = _
    rw [Graph.edge_count,
      complete_pairs_edge_count_undir N _ (complete_nodes_fold_edges N)]
  · rw [hD, Except.map, hfoldD]
    show Except.ok (Graph.node_count _) = _
    rw [Graph.node_count, foldl_add_edge_f_nodes, complete_nodes_fold_count]
  · rw [hD, Except.map, hfoldD]
    show Except.ok (Graph.edge_count _) = _
    rw [Graph.edge_count,
      complete_pairs_edge_count_dir N _ (complete_nodes_fold_edges N)]

end GGL
